import Mathlib

/-!
# Verification of the ScholarScribe document-structure pipeline

Shallow embedding, in Lean 4, of the heuristic parsing pipeline of the
ScholarScribe repository:

* the remote parsing adapter's poll loop
  (`app/services/pdf_parsing/direct_llama_client.py`),
* the layout-heuristic parser's reference processing and failure/fallback
  control flow (`app/services/pdf_parsing/academic_parser.py`),
* the markdown structured extractor
  (`backend/app/services/pdf_parsing/structured_extractor.py`),
* the section-tree assembler
  (`backend/app/services/document_processor.py` and
  `backend/app/db/repositories/section_repository.py`),
* the raw text extractor
  (`backend/app/services/pdf_parsing/text_extractor.py`).

Pure Python functions become Lean functions over `String` / `List` data;
the database-backed section table becomes an explicit list of records;
Python exceptions become `Except` values; external I/O outcomes
(HTTP responses, file reads, library availability) are inputs of the
model, supplied through small environment structures.
-/

/-! ## String helpers (Python `in`, `str.strip`, digit/space tests) -/

/-- Python's substring test `pat in hay`, on character lists. -/
def listContainsSub (pat : List Char) : List Char → Bool
  | [] => decide (pat = [])
  | c :: cs => pat.isPrefixOf (c :: cs) || listContainsSub pat cs

/-- Python's substring test `pat in hay` for strings. -/
def strContainsSub (hay pat : String) : Bool :=
  listContainsSub pat.data hay.data

/-- Whitespace as matched by `\s` in Python regular expressions
(ASCII portion, which is all the sources exercise). -/
def pySpace (c : Char) : Bool :=
  c = ' ' || c = '\t' || c = '\n' || c = '\r' || c.val = 11 || c.val = 12

/-- Python `str.strip` on a character list: drop leading and trailing
whitespace. -/
def pyStripL (l : List Char) : List Char :=
  ((l.dropWhile pySpace).reverse.dropWhile pySpace).reverse

/-- Python `str.strip` for strings. -/
def pyStrip (s : String) : String :=
  ⟨pyStripL s.data⟩

/-- `line.startswith('#')` (kernel-reducible form). -/
def isHeadingLine (s : String) : Bool :=
  match s.data with
  | '#' :: _ => true
  | _ => false

/-- `text.split('\n')` on a character list, accumulator form. -/
def splitNlAux : List Char → List Char → List String
  | [], acc => [⟨acc.reverse⟩]
  | '\n' :: rest, acc => ⟨acc.reverse⟩ :: splitNlAux rest []
  | c :: rest, acc => splitNlAux rest (c :: acc)

/-- Python `text.split('\n')`: split a string at newlines (an empty
string yields `[""]`, a trailing newline yields a trailing `""`). -/
def splitLines (s : String) : List String :=
  splitNlAux s.data []

/-! ## Remote Parsing Adapter: the status poll loop

Model of the `for i in range(max_polls)` / `else` loop of
`DirectLlamaClient.parse_pdf` (direct_llama_client.py, lines 99-139).
Each poll returns a JSON body with a `status` and an optional `error`
field; the loop breaks on a success status, raises on a failure status,
and the `for ... else` clause raises a timeout error when the budget of
30 polls is exhausted. -/

/-- One job-status response body: the `status` string and the optional
`error` field of the JSON returned by the status endpoint. -/
structure JobResponse where
  status : String
  error : Option String
deriving Repr, DecidableEq

/-- Outcome of the poll loop: either the loop broke out of polling after
`polls` status requests (and the code proceeds to result retrieval), or a
`ValueError` was raised (job failure or timeout). -/
inductive PollOutcome where
  | success (polls : Nat)
  | jobFailed (msg : String)
  | timedOut (msg : String)
deriving Repr, DecidableEq

/-- The body of the poll loop: `i` is the 0-based index of the next poll,
the second argument the number of loop iterations still allowed. -/
def pollAux (resp : Nat → JobResponse) (i : Nat) : Nat → PollOutcome
  | 0 => .timedOut "Parsing job timed out after 60 seconds"
  | fuel + 1 =>
    let r := resp i
    if r.status = "SUCCESS" || r.status = "completed" then
      .success (i + 1)
    else if r.status = "failed" || r.status = "error" || r.status = "FAILED" then
      .jobFailed ("Parsing job failed: " ++ r.error.getD "Unknown error")
    else
      pollAux resp (i + 1) fuel

/-- The poll loop of `DirectLlamaClient.parse_pdf` with its budget of
`max_polls = 30` attempts. -/
def pollJob (resp : Nat → JobResponse) : PollOutcome :=
  pollAux resp 0 30

/-! ## Layout-Heuristic Parser: reference processing

Model of `AcademicPaperParser._process_references`
(academic_parser.py, lines 421-437).  The regular expression
`(?:\[\d+\]|\d+\.)\s+(.+)` is matched at the start of each content line;
on a match the stripped capture group starts a new reference, otherwise a
non-empty line is appended (space-joined) to the previous reference. -/

/-- Match `\[\d+\]` at the start of a character list, returning the rest. -/
def matchBracketNum : List Char → Option (List Char)
  | '[' :: rest =>
    let ds := rest.takeWhile Char.isDigit
    let rest' := rest.dropWhile Char.isDigit
    if ds.isEmpty then none
    else match rest' with
      | ']' :: tail => some tail
      | _ => none
  | _ => none

/-- Match `\d+\.` at the start of a character list, returning the rest. -/
def matchNumDot (l : List Char) : Option (List Char) :=
  let ds := l.takeWhile Char.isDigit
  let rest := l.dropWhile Char.isDigit
  if ds.isEmpty then none
  else match rest with
    | '.' :: tail => some tail
    | _ => none

/-- `re.match` of `(?:\[\d+\]|\d+\.)\s+(.+)` against a line: the
alternation is tried left to right, then one or more whitespace
characters, then the capture group takes the (non-newline) remainder,
which must be non-empty. -/
def refMatch (s : String) : Option String :=
  let l := s.data
  let afterNum := match matchBracketNum l with
    | some rest => some rest
    | none => matchNumDot l
  match afterNum with
  | none => none
  | some rest =>
    let ws := rest.takeWhile pySpace
    let body := rest.dropWhile pySpace
    if ws.isEmpty then none
    else
      let cap := body.takeWhile (fun c => c ≠ '\n')
      if cap.isEmpty then none else some ⟨cap⟩

/-- `AcademicPaperParser._process_references`: fold the reference-section
content lines into a list of reference strings. -/
def processReferences (content : List String) : List String :=
  content.foldl
    (fun refs text =>
      match refMatch text with
      | some g => refs ++ [pyStrip g]
      | none =>
        if refs ≠ [] ∧ text ≠ "" then
          refs.dropLast ++ [refs.getLastD "" ++ " " ++ text]
        else refs)
    []

/-! ## Structured Extractor: references

Model of `StructuredPaperExtractor._extract_references`
(structured_extractor.py, lines 204-226).  The extractor scans the
document lines; a `References` heading (with or without `#` markers,
case-insensitively) turns collection on; a later `#`-line inside the
section ends the loop (`break`); a non-blank collected line matching
`^\d+\.?\s+` or `^\[\d+\]\s+` appends the WHOLE stripped line (the
numbered marker is kept); any other non-blank line is space-appended to
the previous reference.  Character classes are modelled over ASCII, as
elsewhere in this development. -/

/-- ASCII `\w`: a letter, a digit or an underscore. -/
def isWordChar (c : Char) : Bool :=
  c.isAlphanum || c = '_'

/-- The head of a character list is a whitespace character (`\s`). -/
def headIsSpace : List Char → Bool
  | c :: _ => pySpace c
  | [] => false

/-- The literal `References` under `re.IGNORECASE`, followed by a word
boundary `\b`: ten characters lowercasing to `references`, with the next
character (if any) not a word character. -/
def matchRefsWord (l : List Char) : Bool :=
  ((l.take 10).map Char.toLower = "references".data : Bool)
    && (match l.drop 10 with
        | [] => true
        | c :: _ => !(isWordChar c))

/-- `re.match` of `^#+\s+References\b` (IGNORECASE): a non-empty leading
`#` run, then at least one whitespace character, then the `References`
word at a boundary. -/
def matchHashRefs (l : List Char) : Bool :=
  !(l.takeWhile (fun c => c = '#')).isEmpty
    && (let r := l.dropWhile (fun c => c = '#')
        !(r.takeWhile pySpace).isEmpty && matchRefsWord (r.dropWhile pySpace))

/-- `re.match` of `^References\b` (IGNORECASE). -/
def matchBareRefs (l : List Char) : Bool :=
  matchRefsWord l

/-- `re.match` of `^\d+\.?\s+`: one or more digits, an optional dot, then
at least one whitespace character.  A dot is never whitespace and a digit
is neither a dot nor whitespace, so the greedy/optional alternatives
collapse to this deterministic form. -/
def matchNumOptDot (s : String) : Bool :=
  !(s.data.takeWhile Char.isDigit).isEmpty
    && (match s.data.dropWhile Char.isDigit with
        | '.' :: tail => headIsSpace tail
        | rest => headIsSpace rest)

/-- `re.match` of `^\[\d+\]\s+`: a bracketed number, then at least one
whitespace character. -/
def matchBracketRef (s : String) : Bool :=
  match matchBracketNum s.data with
  | some rest => headIsSpace rest
  | none => false

/-- The scanning loop of `_extract_references`: `inRefs` is
`in_references`; the `References`-heading test runs on every line (also
inside the section), and the `break` on a `#` line inside the section
returns the references collected so far. -/
def extractReferencesAux : List String → Bool → List String → List String
  | [], _, refs => refs
  | line :: rest, inRefs, refs =>
    if matchHashRefs line.data || matchBareRefs line.data then
      extractReferencesAux rest true refs
    else if inRefs && isHeadingLine line then
      refs
    else if inRefs ∧ pyStrip line ≠ "" then
      if matchNumOptDot line || matchBracketRef line then
        extractReferencesAux rest inRefs (refs ++ [pyStrip line])
      else if refs ≠ [] then
        extractReferencesAux rest inRefs
          (refs.dropLast ++ [refs.getLastD "" ++ " " ++ pyStrip line])
      else
        extractReferencesAux rest inRefs refs
    else
      extractReferencesAux rest inRefs refs

/-- `StructuredPaperExtractor._extract_references` on a markdown
document: split into lines (the constructor's `split('\n')`) and scan. -/
def extract_references (md : String) : List String :=
  extractReferencesAux (splitLines md) false []

/-! ## Structured Extractor: sections

Model of `StructuredPaperExtractor._extract_sections` and
`_get_heading_level` (structured_extractor.py, lines 144-202).  The
extractor walks the markdown lines; a line starting with `#` closes the
current section (if its title is truthy) and opens a new one whose title
is the line after the leading `#` run, stripped; non-blank non-heading
lines are appended to the current section's content; the level of a
section is computed by `_get_heading_level`, which scans the whole
document for the first `#`-line containing the title as a substring. -/

/-- One extracted section record (`{"title": ..., "content": ..., "level": ...}`). -/
structure MdSection where
  title : String
  content : String
  level : Nat
deriving Repr, DecidableEq

/-- Count of leading `'#'` characters of a line
(the `for char in line: if char == '#': ...` loop). -/
def leadingHashes : List Char → Nat
  | '#' :: rest => leadingHashes rest + 1
  | _ => 0

/-- `StructuredPaperExtractor._get_heading_level`: the number of leading
`#` of the first line that starts with `#` and contains `headingText` as
a substring; 1 if no such line exists. -/
def getHeadingLevel (lines : List String) (headingText : String) : Nat :=
  match lines.find? (fun l => isHeadingLine l && strContainsSub l headingText) with
  | some l => leadingHashes l.data
  | none => 1

/-- Python truthiness of `current_section` (`None` and `""` are falsy). -/
def curTruthy : Option String → Bool
  | some t => t ≠ ""
  | none => false

/-- Close the current section, if truthy, appending its record
(the `if current_section: sections.append(...)` block). -/
def pushCur (lines : List String) (cur : Option String) (acc : List String)
    (secs : List MdSection) : List MdSection :=
  match cur with
  | some t =>
    if t = "" then secs
    else secs ++ [⟨t, String.intercalate "\n" acc, getHeadingLevel lines t⟩]
  | none => secs

/-- The `for line in self.lines` loop of `_extract_sections`: state is the
current section title, the accumulated content lines, and the finished
sections.  `current_content` is reset only when a section is pushed,
exactly as in the source. -/
def extractSectionsAux (lines : List String) :
    List String → Option String → List String → List MdSection → List MdSection
  | [], cur, acc, secs => pushCur lines cur acc secs
  | l :: rest, cur, acc, secs =>
    if isHeadingLine l then
      let secs' := pushCur lines cur acc secs
      let acc' := if curTruthy cur then [] else acc
      let hl := leadingHashes l.data
      extractSectionsAux lines rest (some (pyStrip ⟨l.data.drop hl⟩)) acc' secs'
    else if curTruthy cur && pyStrip l ≠ "" then
      extractSectionsAux lines rest cur (acc ++ [l]) secs
    else
      extractSectionsAux lines rest cur acc secs

/-- `_extract_sections` over a pre-split line list. -/
def extractSections (lines : List String) : List MdSection :=
  extractSectionsAux lines lines none [] []

/-- `_extract_sections` over the raw markdown (`markdown_content.split('\n')`). -/
def extractSectionsMd (markdown : String) : List MdSection :=
  extractSections (splitLines markdown)

/-- Specification-side description of the extracted sections (used to
state the corrected form of the section-extraction claim): one section
per `#`-line with a non-empty stripped title, in document order, whose
content is the newline-join of the non-blank non-heading lines up to the
next heading, and whose level is `getHeadingLevel` of its title. -/
def specSectionsAux (lines : List String) : List String → List MdSection
  | [] => []
  | l :: rest =>
    (if isHeadingLine l then
      let t := pyStrip ⟨l.data.drop (leadingHashes l.data)⟩
      if t = "" then [] else
        [⟨t, String.intercalate "\n"
            ((rest.takeWhile (fun s => !isHeadingLine s)).filter
              (fun s => pyStrip s ≠ "")),
          getHeadingLevel lines t⟩]
     else []) ++ specSectionsAux lines rest

/-- The specification-side section list for a line list. -/
def specSections (lines : List String) : List MdSection :=
  specSectionsAux lines lines

/-! ## Section-Tree Assembler

Model of `DocumentProcessingService._process_sections`
(document_processor.py, lines 154-260) and of the tree queries of
`SectionRepository.get_section_tree` (section_repository.py, lines
43-78).  The Python code builds per-section dictionaries, keeps a
`section_map` keyed by title (a Python dict: insertion order preserved,
later values replace earlier ones in place), records the last-seen title
per level, and then creates database rows: roots first, then the
remaining `section_map` entries in insertion order, resolving
`parent_id_key` against the ids created so far.  Dictionaries are
modelled as object slots indexed by input position so that the map holds
references, as in Python; database ids are assigned 0, 1, 2, … in
creation order. -/

/-- An input section as handed to `_process_sections`
(`structured_data["sections"]` entries; content plays no role in the
hierarchy logic but is carried for fidelity). -/
structure SecIn where
  title : String
  level : Nat
  content : String
deriving Repr, DecidableEq

/-- One first-pass `section_data` dictionary. -/
structure SecData where
  title : String
  level : Nat
  ord : Nat
  content : String
  parentKey : Option String
deriving Repr, DecidableEq

/-- One created `Section` row. -/
structure SecRec where
  id : Nat
  title : String
  level : Nat
  ord : Nat
  content : String
  parentId : Option Nat
deriving Repr, DecidableEq

/-- Python-dict insert: replace the value in place if the key exists,
append otherwise. -/
def dictInsert {β : Type} (m : List (String × β)) (k : String) (v : β) :
    List (String × β) :=
  if m.any (fun p => p.1 = k) then
    m.map (fun p => if p.1 = k then (k, v) else p)
  else m ++ [(k, v)]

/-- Python-dict lookup (`m.get(k)`). -/
def dictGet {β : Type} (m : List (String × β)) (k : String) : Option β :=
  (m.find? (fun p => p.1 = k)).map (fun p => p.2)

/-- Dict keyed by a level number (`last_section_by_level`). -/
def dictInsertNat {β : Type} (m : List (Nat × β)) (k : Nat) (v : β) :
    List (Nat × β) :=
  if m.any (fun p => p.1 = k) then
    m.map (fun p => if p.1 = k then (k, v) else p)
  else m ++ [(k, v)]

/-- Lookup in a level-keyed dict. -/
def dictGetNat {β : Type} (m : List (Nat × β)) (k : Nat) : Option β :=
  (m.find? (fun p => p.1 = k)).map (fun p => p.2)

/-- In-place update of the object slot at index `i`. -/
def modifyAt {α : Type} : List α → Nat → (α → α) → List α
  | [], _, _ => []
  | x :: xs, 0, f => f x :: xs
  | x :: xs, n + 1, f => x :: modifyAt xs n f

/-- First pass of `_process_sections`: the `section_data` objects, one
per input position, with `order = i` and no parent. -/
def firstPassObjs (ss : List SecIn) : List SecData :=
  ss.enum.map (fun p => ⟨p.2.title, p.2.level, p.1, p.2.content, none⟩)

/-- First pass `section_map`: title → object slot, Python dict
semantics (later occurrences of a title replace the mapped slot). -/
def firstPassMap (ss : List SecIn) : List (String × Nat) :=
  ss.enum.foldl (fun m p => dictInsert m p.2.title p.1) []

/-- First pass `root_sections`: slots of the level-1 objects, in input
order. -/
def rootSlots (ss : List SecIn) : List Nat :=
  (ss.enum.filter (fun p => p.2.level = 1)).map (fun p => p.1)

/-- Second pass of `_process_sections`: walk the input again tracking
`last_section_by_level`; for a section of level `L > 1` whose parent
candidate (the last title seen at level `L - 1`) resolves in
`section_map`, set `parent_id_key` on the object currently mapped from
this section's title. -/
def secondPass (smap : List (String × Nat)) (ss : List SecIn)
    (objs : List SecData) : List SecData :=
  (ss.foldl
    (fun st (sec : SecIn) =>
      let objs := st.1
      let last := st.2
      let objs' :=
        if sec.level > 1 then
          match dictGetNat last (sec.level - 1) with
          | some parentTitle =>
            match dictGet smap parentTitle with
            | some _ =>
              match dictGet smap sec.title with
              | some ci => modifyAt objs ci (fun o => { o with parentKey := some parentTitle })
              | none => objs
            | none => objs
          | none => objs
        else objs
      (objs', dictInsertNat last sec.level sec.title))
    (objs, ([] : List (Nat × String)))).1

/-- Creation phase, root sections: each `root_sections` entry becomes a
row with `parent_id = None`; ids are assigned in creation order and
recorded in `section_id_map`. -/
def createRoots (objs : List SecData) (roots : List Nat) :
    List SecRec × List (String × Nat) × Nat :=
  roots.foldl
    (fun st slot =>
      match objs.get? slot with
      | some o =>
        (st.1 ++ [⟨st.2.2, o.title, o.level, o.ord, o.content, none⟩],
         dictInsert st.2.1 o.title st.2.2, st.2.2 + 1)
      | none => st)
    ([], [], 0)

/-- Creation phase, child sections: walk `section_map` in insertion
order, skip level-1 entries, resolve `parent_id_key` against the ids
created so far, create the row and record its id. -/
def createChildren (objs : List SecData) (smap : List (String × Nat))
    (start : List SecRec × List (String × Nat) × Nat) :
    List SecRec × List (String × Nat) × Nat :=
  smap.foldl
    (fun st entry =>
      match objs.get? entry.2 with
      | some o =>
        if o.level = 1 then st
        else
          let pid := match o.parentKey with
            | some pk => dictGet st.2.1 pk
            | none => none
          (st.1 ++ [⟨st.2.2, o.title, o.level, o.ord, o.content, pid⟩],
           dictInsert st.2.1 o.title st.2.2, st.2.2 + 1)
      | none => st)
    start

/-- `DocumentProcessingService._process_sections`: the list of created
section rows. -/
def processSections (ss : List SecIn) : List SecRec :=
  let objs := secondPass (firstPassMap ss) ss (firstPassObjs ss)
  (createChildren objs (firstPassMap ss)
    (createRoots objs (rootSlots ss))).1

/-- Stable sort by the `order` column (`ORDER BY Section.order`). -/
def sortByOrd (l : List SecRec) : List SecRec :=
  l.insertionSort (fun a b => a.ord ≤ b.ord)

/-- `SectionRepository.get_section_tree` roots: all rows ordered by
`order`, keeping those with no parent. -/
def rootsOf (recs : List SecRec) : List SecRec :=
  (sortByOrd recs).filter (fun r => r.parentId = none)

/-- `SectionRepository.get_section_tree` children of a node: rows whose
`parent_id` is the node's id, sorted by `order`. -/
def childrenOf (recs : List SecRec) (pid : Nat) : List SecRec :=
  sortByOrd (recs.filter (fun r => r.parentId = some pid))

/-! ## `SectionRepository.move_section`

Model of `move_section` (section_repository.py, lines 136-199).  The
section table is a list of rows; `self.get` is a lookup by primary key
(`find?`; rows are assumed unique by id in the theorems, as the primary
key guarantees).  The cycle check walks the ancestors of the target
parent, starting at `parent.parent_id`; the Python `while` loop does not
terminate on a cyclic ancestor chain that avoids the moved section, so
the walk is fuelled with `length + 1` steps and reports `hang` when the
fuel runs out — with unique ids, exhausting that fuel implies a revisited
id, i.e. a genuine infinite loop of the source.  On success the section's
`parent_id` and `order` are updated, the old location's remaining
siblings are renumbered `0, 1, …`, and at the new location trailing
siblings are shifted by one. -/

/-- One row of the `sections` table (only the columns `move_section`
touches). -/
structure MSec where
  id : Nat
  parentId : Option Nat
  ord : Nat
deriving Repr, DecidableEq

/-- `self.get(db, id=i)`: first row with the given primary key. -/
def getSec (st : List MSec) (i : Nat) : Option MSec :=
  st.find? (fun r => r.id = i)

/-- Outcome of the ancestor walk: the moved section's id was found
(`cycle`), the chain ended at a root or missing row (`clear`), or the
fuel ran out (`hang`, the source loops forever). -/
inductive WalkOut where
  | cycle
  | clear
  | hang
deriving Repr, DecidableEq

/-- The `while current_id:` ancestor walk of `move_section`. -/
def ancWalk (st : List MSec) (sid : Nat) : Option Nat → Nat → WalkOut
  | none, _ => .clear
  | some _, 0 => .hang
  | some c, fuel + 1 =>
    if c = sid then .cycle
    else match getSec st c with
      | none => .clear
      | some r => ancWalk st sid r.parentId fuel

/-- Result of `move_section`: the Python return value together with the
table state at return, or divergence of the ancestor walk. -/
inductive MoveResult where
  | res (returned : Option MSec) (st : List MSec)
  | hang
deriving Repr, DecidableEq

/-- `section.parent_id = new_parent_id; section.order = new_order`. -/
def setSec (st : List MSec) (sid : Nat) (p : Option Nat) (o : Nat) : List MSec :=
  st.map (fun r => if r.id = sid then { r with parentId := p, ord := o } else r)

/-- Stable sort of sibling rows by the `order` column. -/
def sortMByOrd (l : List MSec) : List MSec :=
  l.insertionSort (fun a b => a.ord ≤ b.ord)

/-- Position of the row with id `i` in a sibling list
(`enumerate` index of the query result). -/
def idxInList (l : List MSec) (i : Nat) : Nat :=
  l.findIdx (fun r => r.id = i)

/-- Renumber the remaining siblings at the old location: each row of the
`parent_id == old_parent_id, id != section_id` query, ordered by `order`,
gets its enumeration index as new `order`. -/
def renumberOld (st : List MSec) (op : Nat) (sid : Nat) : List MSec :=
  let sibs := sortMByOrd (st.filter (fun r => r.parentId = some op && r.id ≠ sid))
  st.map (fun r =>
    if r.parentId = some op && r.id ≠ sid then { r with ord := idxInList sibs r.id }
    else r)

/-- Shift the siblings at the new location: rows of the
`parent_id == new_parent_id, id != section_id` query, ordered by `order`,
whose enumeration index is `≥ new_order` get `order := index + 1`. -/
def shiftNew (st : List MSec) (np : Nat) (sid : Nat) (newOrder : Nat) : List MSec :=
  let sibs := sortMByOrd (st.filter (fun r => r.parentId = some np && r.id ≠ sid))
  st.map (fun r =>
    if r.parentId = some np && r.id ≠ sid then
      (if newOrder ≤ idxInList sibs r.id then { r with ord := idxInList sibs r.id + 1 }
       else r)
    else r)

/-- The mutation phase of `move_section` (after all validation). -/
def moveApply (st : List MSec) (sid : Nat) (sec : MSec) (newParent : Option Nat)
    (newOrder : Nat) : MoveResult :=
  let st1 := setSec st sid newParent newOrder
  let st2 := match sec.parentId with
    | some op => renumberOld st1 op sid
    | none => st1
  let st3 := match newParent with
    | some np => shiftNew st2 np sid newOrder
    | none => st2
  .res (getSec st3 sid) st3

/-- `SectionRepository.move_section`. -/
def move_section (st : List MSec) (sid : Nat) (newParent : Option Nat)
    (newOrder : Nat) : MoveResult :=
  match getSec st sid with
  | none => .res none st
  | some sec =>
    match newParent with
    | some pid =>
      match getSec st pid with
      | none => .res none st
      | some parent =>
        match ancWalk st sid parent.parentId (st.length + 1) with
        | .cycle => .res none st
        | .hang => .hang
        | .clear => moveApply st sid sec newParent newOrder
    | none => moveApply st sid sec newParent newOrder

/-- The deterministic ancestor chain: `chainF st c k` follows `parent_id`
`k` times from `c`, `none` when a row or parent link is missing. -/
def chainF (st : List MSec) : Nat → Nat → Option Nat
  | c, 0 => some c
  | c, k + 1 =>
    (getSec st c).bind (fun r => r.parentId.bind (fun p => chainF st p k))

/-- One parent step: some row has id `x` and parent `y`. -/
def stepRel (st : List MSec) (x y : Nat) : Prop :=
  ∃ r ∈ st, r.id = x ∧ r.parentId = some y

/-- `y` is a strict ancestor of `x` in the table (equivalently, `x` is a
strict descendant of `y`). -/
def strictAnc (st : List MSec) (x y : Nat) : Prop :=
  Relation.TransGen (stepRel st) x y

/-- Primary-key uniqueness of the table. -/
def idsNodup (st : List MSec) : Prop :=
  (st.map (fun r => r.id)).Nodup

instance decIdsNodup (st : List MSec) : Decidable (idsNodup st) := by
  unfold idsNodup
  infer_instance

/-- Orders are contiguous: the multiset of values is exactly
`{0, …, n−1}`. -/
def contiguous (l : List Nat) : Prop :=
  l.Perm (List.range l.length)

instance decContiguous (l : List Nat) : Decidable (contiguous l) :=
  inferInstanceAs (Decidable (l.Perm (List.range l.length)))

/-! ## Layout-Heuristic Parser: `process` control flow

Model of `AcademicPaperParser.process` and `_fallback_process`
(academic_parser.py, lines 73-135 and 129-303).  The claims about this
code concern exception routing and the PDF handle, so the outcomes of
the sub-computations are inputs of the model: `openResult` is the
outcome of `pymupdf.open`, `pipelineResult` the outcome of the whole
metadata/structure/markdown pipeline run on the open document, and
`heuristicResult` the outcome of the fallback heuristic pass over the
extracted text; each is `.error msg` when the corresponding Python code
raises.  `__init__` sets `self.fallback_extractor` only when the PyMuPDF
module failed to load, so calling it while PyMuPDF is available raises an
`AttributeError`, which `_fallback_process` catches like any other
exception.  The second component of the result records whether
`self.doc` still holds the open document when `process` returns. -/

/-- Outcomes of the sub-computations of `process`. -/
structure AcadEnv where
  pymupdfAvailable : Bool
  openResult : Except String Unit
  pipelineResult : Except String String
  extractorResult : Except String String
  heuristicResult : Except String String
deriving Repr

/-- String prefix test on character lists (Python `str.startswith`). -/
def strStartsWith (s pat : String) : Bool :=
  pat.data.isPrefixOf s.data

/-- `self.fallback_extractor(self.pdf_path)`: an `AttributeError` when
PyMuPDF imported successfully (the attribute was never set), otherwise
the extractor's outcome. -/
def fallbackExtractorCall (env : AcadEnv) : Except String String :=
  if env.pymupdfAvailable then
    .error "AcademicPaperParser object has no attribute fallback_extractor"
  else env.extractorResult

/-- The `try:` body of `_fallback_process`: extract text; if it is empty
or starts with `"Failed to extract text"` return the minimal document;
otherwise the heuristic pass produces the markdown. -/
def fallbackBody (env : AcadEnv) : Except String String := do
  let text ← fallbackExtractorCall env
  if text = "" || strStartsWith text "Failed to extract text" then
    pure "# ACADEMIC PAPER TITLE\n# Introduction"
  else env.heuristicResult

/-- `_fallback_process`: any exception in the body is caught and
converted to the fixed note document. -/
def fallbackProcess (env : AcadEnv) : String :=
  match fallbackBody env with
  | .ok s => s
  | .error _ =>
    "# ACADEMIC PAPER TITLE\n\n> Note: This document was processed using AcademicPaperParser."

/-- `AcademicPaperParser.process`: the returned markdown together with
whether the opened document handle is still open at return.  The success
path closes the handle; the inner `except` clause falls back without
closing it; when opening itself raised, no handle was ever assigned. -/
def acadProcess (env : AcadEnv) : String × Bool :=
  if !env.pymupdfAvailable then (fallbackProcess env, false)
  else
    match env.openResult with
    | .error _ => (fallbackProcess env, false)
    | .ok _ =>
      match env.pipelineResult with
      | .ok md => (md, false)
      | .error _ => (fallbackProcess env, true)

/-- The document returned by the outer exception handler of `process`. -/
def processingErrorDoc (msg : String) : String :=
  "# Processing Error\n\nThere was an error processing the PDF: " ++ msg

/-! ## Raw Text Extractor

Model of `extract_text_from_pdf` (text_extractor.py, lines 14-161).
When the `pdftotext` tool is unavailable the function reads the raw
bytes (decoded latin-1, a bijection, so the content is a string here)
and runs a cascade of heuristics: text between `stream`/`endstream`
markers, parenthesised fragments followed by a `Tj` operator,
parenthesised fragments alone, and finally bare alphabetic runs.  Each
regular expression of the source is implemented as an explicit scanner
with the same matching semantics (leftmost match, lazy capture with the
greedy leading `\s+`); character classes are modelled on the ASCII range.
All scanners are fuelled by the input length, which bounds every scan.
Any exception (in practice: failing to open/read the file) is caught and
turned into the `"Failed to extract text: …"` message. -/

/-- Python `str.isspace` (ASCII portion). -/
def pyStrSpace (c : Char) : Bool :=
  c = ' ' || c = '\t' || c = '\n' || c = '\r' || c.val = 11 || c.val = 12 ||
    (28 ≤ c.val && c.val ≤ 31)

/-- Python `str.isprintable` (ASCII portion). -/
def pyPrintable (c : Char) : Bool :=
  32 ≤ c.val && c.val ≤ 126

/-- Python `str.isalnum` (ASCII portion). -/
def pyAlnum (c : Char) : Bool :=
  c.isAlpha || c.isDigit

/-- Match `\s+endstream` at the head of `l`; returns the rest after the
literal. -/
def matchEndstream (l : List Char) : Option (List Char) :=
  let ws := l.takeWhile pySpace
  if ws.isEmpty then none
  else
    let r := l.drop ws.length
    if "endstream".data.isPrefixOf r then some (r.drop 9) else none

/-- Find the least `m` such that `\s+endstream` matches at offset `m`;
returns `m` and the rest after the match. -/
def findContentEnd : List Char → Nat → Option (Nat × List Char)
  | _, 0 => none
  | l, fuel + 1 =>
    match matchEndstream l with
    | some rest => some (0, rest)
    | none =>
      match l with
      | [] => none
      | _ :: tl =>
        match findContentEnd tl fuel with
        | some (m, rest) => some (m + 1, rest)
        | none => none

/-- `\s+(.*?)\s+endstream` after the literal `stream`: try the greedy
whitespace length first (`cnt` counts the candidates down), then the
lazy capture. -/
def tryStreamWs (l : List Char) (fuel : Nat) : Nat → Option (List Char × List Char)
  | 0 => none
  | cnt + 1 =>
    let rem := l.drop (cnt + 1)
    match findContentEnd rem fuel with
    | some (m, rest) => some (rem.take m, rest)
    | none => tryStreamWs l fuel cnt

/-- Attempt the stream pattern right after a `stream` literal. -/
def tryStreamAt (l : List Char) (fuel : Nat) : Option (List Char × List Char) :=
  tryStreamWs l fuel (l.takeWhile pySpace).length

/-- `re.findall(r'stream\s+(.*?)\s+endstream', s, re.DOTALL)`. -/
def scanStreams : List Char → Nat → List (List Char)
  | _, 0 => []
  | [], _ => []
  | l :: tl, fuel + 1 =>
    if "stream".data.isPrefixOf (l :: tl) then
      match tryStreamAt ((l :: tl).drop 6) fuel with
      | some (cap, rest) => cap :: scanStreams rest fuel
      | none => scanStreams tl fuel
    else scanStreams tl fuel

/-- Replace non-printable non-space characters of a stream by spaces. -/
def cleanStream (stream : List Char) : List Char :=
  stream.map (fun c => if pyPrintable c || pyStrSpace c then c else ' ')

/-- Keep a stream line when its stripped length is at least 3 and more
than 30% of its characters are alphanumeric. -/
def lineKeep (line : String) : Bool :=
  let alpha := (line.data.filter pyAlnum).length
  (pyStripL line.data).length ≥ 3 && alpha * 10 > 3 * max 1 line.data.length

/-- Stage 2: the kept, stripped lines of all streams. -/
def streamStageLines (l : List Char) (fuel : Nat) : List String :=
  (scanStreams l fuel).flatMap
    (fun st => ((splitNlAux (cleanStream st) []).filter lineKeep).map pyStrip)

/-- After a `)`: skip `[\s\r\n]*`, require the literal `Tj`, return the
rest. -/
def matchTjAfter (l : List Char) : Option (List Char) :=
  let r := l.dropWhile pySpace
  if "Tj".data.isPrefixOf r then some (r.drop 2) else none

/-- Find the least `m` with `l[m] = ')'` followed by `[\s\r\n]*Tj`. -/
def findCloseTj : List Char → Nat → Option (Nat × List Char)
  | _, 0 => none
  | [], _ => none
  | ')' :: tl, fuel + 1 =>
    match matchTjAfter tl with
    | some rest => some (0, rest)
    | none =>
      match findCloseTj tl fuel with
      | some (m, rest) => some (m + 1, rest)
      | none => none
  | _ :: tl, fuel + 1 =>
    match findCloseTj tl fuel with
    | some (m, rest) => some (m + 1, rest)
    | none => none

/-- `re.findall(r'\((.*?)\)[\s\r\n]*Tj', s, re.DOTALL)`. -/
def scanParenTj : List Char → Nat → List (List Char)
  | _, 0 => []
  | [], _ => []
  | '(' :: tl, fuel + 1 =>
    match findCloseTj tl fuel with
    | some (m, rest) => tl.take m :: scanParenTj rest fuel
    | none => scanParenTj tl fuel
  | _ :: tl, fuel + 1 => scanParenTj tl fuel

/-- Find the least `m` with `l[m] = ')'`. -/
def findClose : List Char → Nat → Option (Nat × List Char)
  | _, 0 => none
  | [], _ => none
  | ')' :: tl, _ => some (0, tl)
  | _ :: tl, fuel + 1 =>
    match findClose tl fuel with
    | some (m, rest) => some (m + 1, rest)
    | none => none

/-- `re.findall(r'\((.*?)\)', s, re.DOTALL)`. -/
def scanParens : List Char → Nat → List (List Char)
  | _, 0 => []
  | [], _ => []
  | '(' :: tl, fuel + 1 =>
    match findClose tl fuel with
    | some (m, rest) => tl.take m :: scanParens rest fuel
    | none => scanParens tl fuel
  | _ :: tl, fuel + 1 => scanParens tl fuel

/-- `\d{1,lim}` then the rest, or nothing when the digit run is absent
or too long to let the pattern continue. -/
def matchDigits (l : List Char) (lo hi : Nat) : Option (List Char) :=
  let ds := l.takeWhile Char.isDigit
  if lo ≤ ds.length && ds.length ≤ hi then some (l.drop ds.length) else none

/-- `^\d{1,2}/\d{1,2}/\d{2,4}$`. -/
def isDateFrag (l : List Char) : Bool :=
  match matchDigits l 1 2 with
  | some ('/' :: r1) =>
    match matchDigits r1 1 2 with
    | some ('/' :: r2) =>
      match matchDigits r2 2 4 with
      | some [] => true
      | _ => false
    | _ => false
  | _ => false

/-- `^\d{1,2}:\d{1,2}(:\d{1,2})?$`. -/
def isTimeFrag (l : List Char) : Bool :=
  match matchDigits l 1 2 with
  | some (':' :: r1) =>
    match matchDigits r1 1 2 with
    | some [] => true
    | some (':' :: r2) =>
      match matchDigits r2 1 2 with
      | some [] => true
      | _ => false
    | _ => false
  | _ => false

/-- Stage-3 fragment filter: at least 2 characters, at least 2
alphanumerics, not a date or time. -/
def tjFragKeep (m : List Char) : Bool :=
  m.length ≥ 2 && (m.filter pyAlnum).length ≥ 2 && !isDateFrag m && !isTimeFrag m

/-- Stage-3 paragraph assembly: fragments accumulate; a fragment ending
in `.` flushes the current paragraph. -/
def assembleParas (ms : List (List Char)) : String :=
  let st := ms.foldl
    (fun (st : List String × List String) m =>
      let cur := st.2 ++ [(⟨m⟩ : String)]
      if m.getLast? = some '.' then (st.1 ++ [String.intercalate " " cur], [])
      else (st.1, cur))
    ([], [])
  let paras := if st.2.isEmpty then st.1 else st.1 ++ [String.intercalate " " st.2]
  String.intercalate "\n\n" paras

/-- Python `str.istitle` (ASCII portion): uppercase only after uncased,
lowercase only after cased, and at least one cased character. -/
def pyIsTitleAux : List Char → Bool → Bool → Bool
  | [], _, seenCased => seenCased
  | c :: tl, prevCased, seenCased =>
    if c.isUpper then
      if prevCased then false else pyIsTitleAux tl true true
    else if c.isLower then
      if prevCased then pyIsTitleAux tl true true else false
    else pyIsTitleAux tl false seenCased

/-- Python `str.istitle` (ASCII portion). -/
def pyIsTitle (l : List Char) : Bool :=
  pyIsTitleAux l false false

/-- Stage-4 fragment filter: length at least 5, contains a space, at
least half alphanumeric. -/
def parenFragKeep (m : List Char) : Bool :=
  m.length ≥ 5 && m.contains ' ' && 2 * (m.filter pyAlnum).length ≥ m.length

/-- Stage-4 assembly: short title-case fragments become `## ` headings,
others accumulate into paragraphs joined by blank lines. -/
def assembleSections (ms : List (List Char)) : String :=
  let st := ms.foldl
    (fun (st : List String × List String) m =>
      if m.length < 50 && pyIsTitle (pyStripL m) && m.getLast? ≠ some '.' then
        let secs := if st.2.isEmpty then st.1
          else st.1 ++ [String.intercalate "\n\n" st.2]
        (secs ++ ["\n## " ++ (⟨m⟩ : String) ++ "\n"], [])
      else (st.1, st.2 ++ [(⟨m⟩ : String)]))
    ([], [])
  let secs := if st.2.isEmpty then st.1 else st.1 ++ [String.intercalate "\n\n" st.2]
  String.intercalate "\n" secs

/-- Maximal ASCII-alphabetic runs of length ≥ 3
(`re.findall(r'[A-Za-z]{3,}', s)`). -/
def alphaRuns : List Char → Nat → List (List Char)
  | _, 0 => []
  | [], _ => []
  | c :: tl, fuel + 1 =>
    if c.isAlpha then
      let run := (c :: tl).takeWhile Char.isAlpha
      let rest := (c :: tl).dropWhile Char.isAlpha
      (if run.length ≥ 3 then [run] else []) ++ alphaRuns rest fuel
    else alphaRuns tl fuel

/-- Stage 5: printable non-digit characters, then alphabetic runs joined
by spaces. -/
def stage5Text (l : List Char) : String :=
  let printable := l.map (fun c =>
    if (pyPrintable c || pyStrSpace c) && !c.isDigit then c else ' ')
  String.intercalate " " ((alphaRuns printable (printable.length + 1)).map
    (fun w => (⟨w⟩ : String)))

/-- `re.sub(r'\s+Tj', '', text)`: remove every maximal whitespace run
that is immediately followed by the literal `Tj`, together with that
literal. -/
def stripTjOps : List Char → Nat → List Char
  | l, 0 => l
  | [], _ => []
  | c :: tl, fuel + 1 =>
    if pySpace c then
      let ws := (c :: tl).takeWhile pySpace
      let rest := (c :: tl).drop ws.length
      if "Tj".data.isPrefixOf rest then stripTjOps (rest.drop 2) fuel
      else c :: stripTjOps tl fuel
    else c :: stripTjOps tl fuel

/-- The byte-content cascade of `extract_text_from_pdf` (stages 2-5 of
the spec) followed by the final `Tj` cleanup. -/
def byteExtract (content : String) : String :=
  let l := content.data
  let fuel := l.length + 1
  let text1 := String.intercalate "\n" (streamStageLines l fuel)
  let text2 :=
    if pyStrip text1 ≠ "" then text1
    else
      let filtered := (scanParenTj l fuel).filter tjFragKeep
      if !filtered.isEmpty then assembleParas filtered
      else assembleSections ((scanParens l fuel).filter parenFragKeep)
  let text3 := if pyStrip text2 ≠ "" then text2 else stage5Text l
  ⟨stripTjOps text3.data (text3.data.length + 1)⟩

/-- Environment of one `extract_text_from_pdf` call: the outcome of the
`pdftotext` attempt and of reading the file. -/
structure TxEnv where
  pdftotextOutput : Option String
  readResult : Except String String
deriving Repr

/-- `extract_text_from_pdf`: `pdftotext` output verbatim when available;
otherwise the byte-content cascade; an exception while reading yields
the failure message. -/
def extract_text_from_pdf (env : TxEnv) : String :=
  match env.pdftotextOutput with
  | some out => out
  | none =>
    match env.readResult with
    | .error e => "Failed to extract text: " ++ e
    | .ok content => byteExtract content

example : processReferences ["1. Smith et al. Title.", "continued text."] =
    ["Smith et al. Title. continued text."] := by decide

example : extract_references "REFERENCES\n[3]  A paper.\nmore.\n# Next" =
    ["[3]  A paper. more."] := by decide

example : extract_references "body\n1. no section started" = [] := by decide

example :
    pollJob (fun i => ⟨if i < 2 then "PENDING" else "SUCCESS", none⟩) =
      .success 3 := by decide

example : extractSectionsMd "# Intro Overview\n## Intro" =
    [⟨"Intro Overview", "", 1⟩, ⟨"Intro", "", 1⟩] := by decide

example : extractSectionsMd "# A\n## B\n### C" =
    [⟨"A", "", 1⟩, ⟨"B", "", 2⟩, ⟨"C", "", 3⟩] := by decide

example : specSections ["# A", "x", "", "y", "## B"] =
    extractSections ["# A", "x", "", "y", "## B"] := by decide

example : specSections ["# A", "x", "", "y", "## B"] =
    [⟨"A", "x\ny", 1⟩, ⟨"B", "", 2⟩] := by decide

example :
    (rootsOf (processSections
      [⟨"T1", 1, ""⟩, ⟨"T2", 2, ""⟩, ⟨"T3", 2, ""⟩, ⟨"T4", 1, ""⟩])).map
        SecRec.title = ["T1", "T4"] := by decide

example :
    ((rootsOf (processSections
      [⟨"T1", 1, ""⟩, ⟨"T2", 2, ""⟩, ⟨"T3", 2, ""⟩, ⟨"T4", 1, ""⟩])).map
        (fun r => (childrenOf (processSections
          [⟨"T1", 1, ""⟩, ⟨"T2", 2, ""⟩, ⟨"T3", 2, ""⟩, ⟨"T4", 1, ""⟩])
            r.id |>.map SecRec.title))) = [["T2", "T3"], []] := by decide

example :
    move_section [⟨0, none, 0⟩, ⟨1, none, 1⟩] 0 none 1 =
      .res (some ⟨0, none, 1⟩) [⟨0, none, 1⟩, ⟨1, none, 1⟩] := by decide

example :
    ¬ contiguous (([⟨0, none, 1⟩, ⟨1, none, 1⟩] :
      List MSec).filter (fun r => r.parentId = none) |>.map MSec.ord) := by decide

example :
    move_section [⟨0, none, 0⟩, ⟨1, some 0, 0⟩] 0 (some 1) 0 =
      .res none [⟨0, none, 0⟩, ⟨1, some 0, 0⟩] := by decide

example :
    move_section [⟨0, none, 0⟩] 0 (some 0) 0 =
      .res (some ⟨0, some 0, 0⟩) [⟨0, some 0, 0⟩] := by decide

example :
    move_section [⟨0, some 9, 3⟩, ⟨1, some 9, 5⟩, ⟨2, some 9, 7⟩,
        ⟨9, none, 0⟩, ⟨7, none, 1⟩, ⟨3, some 7, 0⟩, ⟨4, some 7, 1⟩]
      1 (some 7) 1 =
      .res (some ⟨1, some 7, 1⟩)
        [⟨0, some 9, 0⟩, ⟨1, some 7, 1⟩, ⟨2, some 9, 1⟩,
         ⟨9, none, 0⟩, ⟨7, none, 1⟩, ⟨3, some 7, 0⟩, ⟨4, some 7, 2⟩] := by decide

example :
    byteExtract "%%%%" = "" := by decide

example :
    extract_text_from_pdf ⟨none, .ok "%%%%"⟩ = "" := by decide

example :
    strContainsSub "" "Failed" = false := by decide

example :
    acadProcess ⟨true, .ok (), .error "bad xref table", .ok "", .ok ""⟩ =
      ("# ACADEMIC PAPER TITLE\n\n> Note: This document was processed using AcademicPaperParser.",
        true) := by decide

example :
    byteExtract "q stream  Hello world this is text  endstream Q" =
      "Hello world this is text" := by decide

example : scanParenTj "(Hello) Tj x (a(b)) Tj".data 30 =
    ["Hello".data, "a(b)".data] := by decide

example : (⟨stripTjOps "abc  Tj def Tjx".data 20⟩ : String) = "abc defx" := by decide

example : scanStreams "stream   endstream".data 20 = [[]] := by decide

/-! ## Theorems: Structured Extractor sections (bridge lemma) -/

theorem extractAux_spec (lines : List String) :
    ∀ rest : List String,
      (∀ (t : String) (acc : List String) (secs : List MdSection), t ≠ "" →
        extractSectionsAux lines rest (some t) acc secs =
          secs ++ [⟨t, String.intercalate "\n"
              (acc ++ (rest.takeWhile (fun s => !isHeadingLine s)).filter
                (fun s => pyStrip s ≠ "")),
            getHeadingLevel lines t⟩] ++ specSectionsAux lines rest) ∧
      (∀ (cur : Option String) (secs : List MdSection), curTruthy cur = false →
        extractSectionsAux lines rest cur [] secs =
          secs ++ specSectionsAux lines rest) := by
  intro rest
  induction rest with
  | nil =>
    constructor
    · intro t acc secs ht
      simp [extractSectionsAux, pushCur, specSectionsAux, ht]
    · intro cur secs hcur
      cases cur with
      | none => simp [extractSectionsAux, pushCur, specSectionsAux]
      | some t =>
        have ht : t = "" := by
          by_contra h
          simp [curTruthy, h] at hcur
        simp [extractSectionsAux, pushCur, specSectionsAux, ht]
  | cons l rs ih =>
    constructor
    · intro t acc secs ht
      by_cases hl : isHeadingLine l = true
      · rw [extractSectionsAux]
        simp only [hl, if_true]
        have htruthy : curTruthy (some t) = true := by simp [curTruthy, ht]
        have hpush : pushCur lines (some t) acc secs =
            secs ++ [⟨t, String.intercalate "\n" acc, getHeadingLevel lines t⟩] := by
          simp [pushCur, ht]
        rw [htruthy, hpush]
        simp only [if_true]
        set t2 := pyStrip ⟨l.data.drop (leadingHashes l.data)⟩ with ht2def
        by_cases ht2 : t2 = ""
        · have := (ih).2 (some t2) (secs ++ [⟨t, String.intercalate "\n" acc,
              getHeadingLevel lines t⟩]) (by simp [curTruthy, ht2])
          rw [this]
          rw [specSectionsAux]
          simp [hl, ← ht2def, ht2, List.takeWhile]
        · have := (ih).1 t2 [] (secs ++ [⟨t, String.intercalate "\n" acc,
              getHeadingLevel lines t⟩]) ht2
          rw [this]
          rw [specSectionsAux]
          simp [hl, ← ht2def, ht2, List.takeWhile]
      · rw [extractSectionsAux]
        simp only [hl]
        have htruthy : curTruthy (some t) = true := by simp [curTruthy, ht]
        by_cases hb : pyStrip l ≠ ""
        · have hcond : (curTruthy (some t) && decide (pyStrip l ≠ "")) = true := by
            simp [curTruthy, ht, hb]
          simp only [Bool.false_eq_true, if_false, hcond, if_true]
          rw [(ih).1 t (acc ++ [l]) secs ht]
          rw [specSectionsAux]
          simp [hl, List.takeWhile, hb, List.filter]
        · have hcond : (curTruthy (some t) && decide (pyStrip l ≠ "")) = false := by
            push_neg at hb
            simp [hb]
          push_neg at hb
          simp only [Bool.false_eq_true, if_false, hcond]
          rw [(ih).1 t acc secs ht]
          rw [specSectionsAux]
          simp [hl, List.takeWhile, hb, List.filter]
    · intro cur secs hcur
      by_cases hl : isHeadingLine l = true
      · rw [extractSectionsAux]
        simp only [hl, if_true, hcur]
        have hpush : pushCur lines cur [] secs = secs := by
          cases cur with
          | none => simp [pushCur]
          | some t =>
            have ht : t = "" := by
              by_contra h
              simp [curTruthy, h] at hcur
            simp [pushCur, ht]
        rw [hpush]
        simp only [Bool.false_eq_true, if_false]
        set t2 := pyStrip ⟨l.data.drop (leadingHashes l.data)⟩ with ht2def
        by_cases ht2 : t2 = ""
        · have := (ih).2 (some t2) secs (by simp [curTruthy, ht2])
          rw [this]
          rw [specSectionsAux]
          simp [hl, ← ht2def, ht2, List.takeWhile]
        · have := (ih).1 t2 [] secs ht2
          rw [this]
          rw [specSectionsAux]
          simp [hl, ← ht2def, ht2, List.takeWhile]
      · rw [extractSectionsAux]
        have hcond : (curTruthy cur && decide (pyStrip l ≠ "")) = false := by
          simp [hcur]
        simp only [hl, Bool.false_eq_true, if_false, hcond]
        rw [(ih).2 cur secs hcur]
        rw [specSectionsAux]
        simp [hl]

/-! ## Theorems: `move_section` helper lemmas -/

theorem getSec_some_id (st : List MSec) (x : Nat) (r : MSec)
    (h : getSec st x = some r) : r.id = x := by
  have := List.find?_some h
  simpa using this

theorem getSec_some_mem (st : List MSec) (x : Nat) (r : MSec)
    (h : getSec st x = some r) : r ∈ st :=
  List.mem_of_find?_eq_some h

theorem getSec_mem (st : List MSec) (r : MSec) (x : Nat)
    (hnodup : idsNodup st) (hr : r ∈ st) (hid : r.id = x) :
    getSec st x = some r := by
  induction st with
  | nil => simp at hr
  | cons a tl ih =>
    by_cases h : a.id = x
    · rw [getSec, List.find?_cons_of_pos _ (by simpa using h)]
      rcases List.mem_cons.mp hr with heq | htl
      · rw [heq]
      · exfalso
        have hmem : x ∈ tl.map (fun r => r.id) := List.mem_map.mpr ⟨r, htl, hid⟩
        have hnot := (List.nodup_cons.mp hnodup).1
        exact hnot (by simp only [h]; exact hmem)
    · rw [getSec, List.find?_cons_of_neg _ (by simpa using h)]
      have htl : r ∈ tl := by
        rcases List.mem_cons.mp hr with heq | htl
        · exact absurd (heq ▸ hid) h
        · exact htl
      exact ih (List.nodup_cons.mp hnodup).2 htl

theorem chainF_one (st : List MSec) (x y : Nat) (hnodup : idsNodup st)
    (hstep : stepRel st x y) : chainF st x 1 = some y := by
  obtain ⟨r, hr, hid, hpar⟩ := hstep
  rw [chainF, getSec_mem st r x hnodup hr hid]
  simp [hpar, chainF]

theorem chainF_add (st : List MSec) (k m : Nat) :
    ∀ a, chainF st a (k + m) =
      (chainF st a k).bind (fun c => chainF st c m) := by
  induction k with
  | zero => intro a; simp [chainF, Nat.zero_add]
  | succ k ih =>
    intro a
    have hkm : k + 1 + m = (k + m) + 1 := by omega
    rw [hkm]
    cases hga : getSec st a with
    | none => simp [chainF, hga]
    | some r =>
      cases hp : r.parentId with
      | none => simp [chainF, hga, hp]
      | some p =>
        simp only [chainF, hga, hp, Option.some_bind]
        exact ih p

theorem transGen_chainF (st : List MSec) (q sid : Nat) (hnodup : idsNodup st)
    (h : strictAnc st q sid) : ∃ k, 1 ≤ k ∧ chainF st q k = some sid := by
  induction h with
  | single hstep => exact ⟨1, Nat.le_refl 1, chainF_one st _ _ hnodup hstep⟩
  | tail _ hstep ih =>
    obtain ⟨k, hk, hchain⟩ := ih
    refine ⟨k + 1, by omega, ?_⟩
    rw [chainF_add st k 1, hchain]
    simpa using chainF_one st _ _ hnodup hstep

theorem chainF_prefix (st : List MSec) (a b : Nat) (i k : Nat)
    (hik : i ≤ k) (hchain : chainF st a k = some b) :
    ∃ c, chainF st a i = some c := by
  have hk : k = i + (k - i) := by omega
  rw [hk, chainF_add] at hchain
  cases hc : chainF st a i with
  | none => rw [hc] at hchain; simp at hchain
  | some c => exact ⟨c, rfl⟩

theorem chainF_step_mem (st : List MSec) (a b : Nat)
    (h : chainF st a 1 = some b) : a ∈ st.map (fun r => r.id) := by
  rw [chainF] at h
  cases hg : getSec st a with
  | none => rw [hg] at h; simp at h
  | some r =>
    exact List.mem_map.mpr ⟨r, getSec_some_mem st a r hg, getSec_some_id st a r hg⟩

theorem chainF_bound (st : List MSec) (q sid : Nat)
    (h : ∃ k, 1 ≤ k ∧ chainF st q k = some sid) :
    ∃ k, 1 ≤ k ∧ k ≤ st.length ∧ chainF st q k = some sid := by
  classical
  have hP : ∃ k, 1 ≤ k ∧ chainF st q k = some sid := h
  obtain ⟨hk01, hk0chain⟩ := Nat.find_spec hP
  by_cases hle : Nat.find hP ≤ st.length
  · exact ⟨Nat.find hP, hk01, hle, hk0chain⟩
  · exfalso
    push_neg at hle
    have hvals : ∀ i, i < Nat.find hP →
        chainF st q i = some ((chainF st q i).getD 0) := by
      intro i hi
      obtain ⟨c, hc⟩ := chainF_prefix st q sid i (Nat.find hP) (by omega) hk0chain
      rw [hc]
      rfl
    have hmaps : ∀ i ∈ Finset.range (Nat.find hP),
        (chainF st q i).getD 0 ∈ (st.map (fun r => r.id)).toFinset := by
      intro i hi
      rw [Finset.mem_range] at hi
      obtain ⟨c', hc'⟩ : ∃ c', chainF st q (i + 1) = some c' :=
        chainF_prefix st q sid (i + 1) (Nat.find hP) (by omega) hk0chain
      have h1 := chainF_add st i 1 q
      rw [hvals i hi, hc'] at h1
      simp only [Option.some_bind] at h1
      rw [List.mem_toFinset]
      exact chainF_step_mem st _ c' h1.symm
    have hcard : ((st.map (fun r => r.id)).toFinset).card <
        (Finset.range (Nat.find hP)).card := by
      have h1 : ((st.map (fun r => r.id)).toFinset).card ≤ st.length := by
        calc ((st.map (fun r => r.id)).toFinset).card
            ≤ (st.map (fun r => r.id)).length := List.toFinset_card_le _
          _ = st.length := by simp
      rw [Finset.card_range]
      omega
    obtain ⟨i, hi, j, hj, hij, hfij⟩ :=
      Finset.exists_ne_map_eq_of_card_lt_of_maps_to hcard hmaps
    rw [Finset.mem_range] at hi hj
    -- by symmetry assume i < j, splice the chain at the repeated value
    rcases Nat.lt_or_ge i j with hlt | hge
    · have hsplit : chainF st q (Nat.find hP) =
          (chainF st q j).bind (fun c => chainF st c (Nat.find hP - j)) := by
        conv_lhs => rw [show Nat.find hP = j + (Nat.find hP - j) by omega]
        exact chainF_add st j (Nat.find hP - j) q
      rw [hvals j hj, hk0chain] at hsplit
      simp only [Option.some_bind] at hsplit
      have hk' : chainF st q (i + (Nat.find hP - j)) = some sid := by
        rw [chainF_add st i (Nat.find hP - j) q, hvals i hi]
        simp only [Option.some_bind]
        rw [hfij]
        exact hsplit.symm
      exact Nat.find_min hP (show i + (Nat.find hP - j) < Nat.find hP by omega)
        ⟨by omega, hk'⟩
    · have hlt2 : j < i := by omega
      have hsplit : chainF st q (Nat.find hP) =
          (chainF st q i).bind (fun c => chainF st c (Nat.find hP - i)) := by
        conv_lhs => rw [show Nat.find hP = i + (Nat.find hP - i) by omega]
        exact chainF_add st i (Nat.find hP - i) q
      rw [hvals i hi, hk0chain] at hsplit
      simp only [Option.some_bind] at hsplit
      have hk' : chainF st q (j + (Nat.find hP - i)) = some sid := by
        rw [chainF_add st j (Nat.find hP - i) q, hvals j hj]
        simp only [Option.some_bind]
        rw [← hfij]
        exact hsplit.symm
      exact Nat.find_min hP (show j + (Nat.find hP - i) < Nat.find hP by omega)
        ⟨by omega, hk'⟩

theorem chainF_walk (st : List MSec) (sid : Nat) :
    ∀ (k c fuel : Nat), chainF st c k = some sid → k < fuel →
      ancWalk st sid (some c) fuel = .cycle := by
  intro k
  induction k with
  | zero =>
    intro c fuel hc hf
    have hcs : c = sid := by simpa [chainF] using hc
    cases fuel with
    | zero => omega
    | succ f => simp [ancWalk, hcs]
  | succ k ih =>
    intro c fuel hc hf
    cases fuel with
    | zero => omega
    | succ f =>
      rw [chainF] at hc
      cases hg : getSec st c with
      | none => rw [hg] at hc; simp at hc
      | some r =>
        rw [hg] at hc
        simp only [Option.some_bind] at hc
        cases hp : r.parentId with
        | none => rw [hp] at hc; simp at hc
        | some p =>
          rw [hp] at hc
          simp only [Option.some_bind] at hc
          by_cases hcs : c = sid
          · simp [ancWalk, hcs]
          · rw [ancWalk]
            simp only [hcs, if_false, hg, hp]
            exact ih p f hc (by omega)

theorem getSec_map_idp (st : List MSec) (f : MSec → MSec)
    (hf : ∀ r, (f r).id = r.id) (x : Nat) :
    getSec (st.map f) x = (getSec st x).map f := by
  induction st with
  | nil => simp [getSec]
  | cons a tl ih =>
    simp only [getSec, List.map_cons]
    by_cases h : a.id = x
    · rw [List.find?_cons_of_pos _ (by simp [hf, h]),
        List.find?_cons_of_pos _ (by simp [h])]
      simp
    · rw [List.find?_cons_of_neg _ (by simp [hf, h]),
        List.find?_cons_of_neg _ (by simp [h])]
      simpa [getSec] using ih

theorem getSec_setSec (st : List MSec) (sid : Nat) (p : Option Nat) (o : Nat) :
    getSec (setSec st sid p o) sid =
      (getSec st sid).map (fun r => { r with parentId := p, ord := o }) := by
  unfold setSec
  rw [getSec_map_idp st _ (fun r => by split <;> rfl) sid]
  cases hr : getSec st sid with
  | none => simp
  | some r =>
    have hid := getSec_some_id st sid r hr
    simp [hid]

theorem getSec_renumberOld_self (st : List MSec) (op sid : Nat) :
    getSec (renumberOld st op sid) sid = getSec st sid := by
  simp only [renumberOld]
  rw [getSec_map_idp st _ (fun r => by split <;> rfl) sid]
  cases hr : getSec st sid with
  | none => simp
  | some r =>
    have hid := getSec_some_id st sid r hr
    simp [hid]

theorem getSec_shiftNew_self (st : List MSec) (np sid newOrder : Nat) :
    getSec (shiftNew st np sid newOrder) sid = getSec st sid := by
  simp only [shiftNew]
  rw [getSec_map_idp st _ (fun r => by split <;> (try split) <;> rfl) sid]
  cases hr : getSec st sid with
  | none => simp
  | some r =>
    have hid := getSec_some_id st sid r hr
    simp [hid]

/-- C7: moving a section under one of its own strict descendants is
rejected: `move_section` returns `None` and the table is unchanged (the
rejection paths of the source perform no writes).  The hypotheses are
primary-key uniqueness and that the target parent `q` is a strict
descendant of the moved section `sid`. -/
theorem C7_move_rejects_descendant (st : List MSec) (sid q newOrder : Nat)
    (hnodup : idsNodup st) (hdesc : strictAnc st q sid) :
    move_section st sid (some q) newOrder = .res none st := by
  cases hs : getSec st sid with
  | none => simp [move_section, hs]
  | some sec =>
    obtain ⟨k, hk1, hkle, hchain⟩ :=
      chainF_bound st q sid (transGen_chainF st q sid hnodup hdesc)
    obtain ⟨k', rfl⟩ : ∃ k', k = k' + 1 := ⟨k - 1, by omega⟩
    rw [chainF] at hchain
    cases hg : getSec st q with
    | none => rw [hg] at hchain; simp at hchain
    | some parent =>
      rw [hg] at hchain
      simp only [Option.some_bind] at hchain
      cases hp : parent.parentId with
      | none => rw [hp] at hchain; simp at hchain
      | some p =>
        rw [hp] at hchain
        simp only [Option.some_bind] at hchain
        have hwalk : ancWalk st sid (some p) (st.length + 1) = .cycle :=
          chainF_walk st sid k' p (st.length + 1) hchain (by omega)
        simp [move_section, hs, hg, hp, hwalk]

/-- Witness for C7 at a concrete two-row table: section 1 is a child of
section 0, and moving 0 under 1 is rejected with the table unchanged. -/
theorem C7_witness :
    move_section [⟨0, none, 0⟩, ⟨1, some 0, 0⟩] 0 (some 1) 5 =
      .res none [⟨0, none, 0⟩, ⟨1, some 0, 0⟩] :=
  C7_move_rejects_descendant [⟨0, none, 0⟩, ⟨1, some 0, 0⟩] 0 1 5 (by decide)
    (Relation.TransGen.single ⟨⟨1, some 0, 0⟩, by decide, rfl, rfl⟩)

/-- C10: the cycle check walks only the strict ancestors of the target
parent (it starts at `parent.parent_id`), so a call with
`new_parent_id = section_id` passes validation whenever the section's
own ancestor chain is acyclic (the walk comes back clear), and the
section becomes its own parent. -/
theorem C10_self_parent_allowed (st : List MSec) (sid newOrder : Nat) (s : MSec)
    (hs : getSec st sid = some s)
    (hacyclic : ancWalk st sid s.parentId (st.length + 1) = .clear) :
    ∃ st' s', move_section st sid (some sid) newOrder = .res (some s') st' ∧
      s'.parentId = some sid ∧ getSec st' sid = some s' := by
  have hmv : move_section st sid (some sid) newOrder =
      moveApply st sid s (some sid) newOrder := by
    simp [move_section, hs, hacyclic]
  have h1 : getSec (setSec st sid (some sid) newOrder) sid =
      some ⟨s.id, some sid, newOrder⟩ := by
    rw [getSec_setSec, hs]
    rfl
  cases hsp : s.parentId with
  | none =>
    have h3 : getSec (shiftNew (setSec st sid (some sid) newOrder) sid sid newOrder)
        sid = some ⟨s.id, some sid, newOrder⟩ := by
      rw [getSec_shiftNew_self]
      exact h1
    refine ⟨shiftNew (setSec st sid (some sid) newOrder) sid sid newOrder,
      ⟨s.id, some sid, newOrder⟩, ?_, rfl, h3⟩
    rw [hmv]
    simp only [moveApply, hsp]
    rw [h3]
  | some op =>
    have h2 : getSec (renumberOld (setSec st sid (some sid) newOrder) op sid) sid =
        some ⟨s.id, some sid, newOrder⟩ := by
      rw [getSec_renumberOld_self]
      exact h1
    have h3 : getSec (shiftNew (renumberOld (setSec st sid (some sid) newOrder) op sid)
        sid sid newOrder) sid = some ⟨s.id, some sid, newOrder⟩ := by
      rw [getSec_shiftNew_self]
      exact h2
    refine ⟨shiftNew (renumberOld (setSec st sid (some sid) newOrder) op sid)
      sid sid newOrder, ⟨s.id, some sid, newOrder⟩, ?_, rfl, h3⟩
    rw [hmv]
    simp only [moveApply, hsp]
    rw [h3]

/-- Witness for C10 at a concrete one-row table: section 0 (a root) is
moved under itself and ends up being its own parent. -/
theorem C10_witness :
    ∃ st' s', move_section [(⟨0, none, 0⟩ : MSec)] 0 (some 0) 0 =
        .res (some s') st' ∧ s'.parentId = some 0 ∧ getSec st' 0 = some s' :=
  C10_self_parent_allowed [⟨0, none, 0⟩] 0 0 ⟨0, none, 0⟩ (by decide) (by decide)

/-! ## Theorems: helper lemmas for the renumbering analysis -/

theorem idx_get (l : List MSec) (hnd : (l.map (fun r => r.id)).Nodup) :
    ∀ (i : Nat) (hi : i < l.length), idxInList l (l[i].id) = i := by
  induction l with
  | nil => intro i hi; simp at hi
  | cons a tl ih =>
    intro i hi
    cases i with
    | zero =>
      simp [idxInList, List.findIdx_cons]
    | succ i =>
      have hi' : i < tl.length := by simpa using hi
      have hmem : tl[i].id ∈ tl.map (fun r => r.id) :=
        List.mem_map.mpr ⟨tl[i], List.getElem_mem hi', rfl⟩
      have hnot := (List.nodup_cons.mp hnd).1
      have hne : ¬ (a.id = tl[i].id) :=
        fun heq => hnot (by simp only [heq]; exact hmem)
      have hcons : (a :: tl)[i + 1] = tl[i] := by simp
      rw [hcons]
      simp only [idxInList, List.findIdx_cons]
      rw [show (decide (a.id = tl[i].id)) = false from by
        simp only [decide_eq_false_iff_not]; exact hne]
      simp only [cond_false]
      have := ih (List.nodup_cons.mp hnd).2 i hi'
      simp only [idxInList] at this
      omega

theorem idx_map_range (l : List MSec) (hnd : (l.map (fun r => r.id)).Nodup) :
    l.map (fun r => idxInList l r.id) = List.range l.length := by
  apply List.ext_getElem (by simp)
  intro i h1 h2
  simp only [List.getElem_map, List.getElem_range]
  exact idx_get l hnd i (by simpa using h1)

theorem filter_map_comm (l : List MSec) (f : MSec → MSec) (pred : MSec → Bool)
    (h : ∀ r, pred (f r) = pred r) :
    (l.map f).filter pred = (l.filter pred).map f := by
  induction l with
  | nil => simp
  | cons a tl ih =>
    by_cases hp : pred a = true
    · simp only [List.map_cons, List.filter_cons, h a, hp, if_true, ih]
    · have hp' : pred a = false := by
        cases hpa : pred a
        · rfl
        · exact absurd hpa hp
      simp only [List.map_cons, List.filter_cons, h a, hp', ih]
      simp

theorem filter_map_fix (l : List MSec) (f : MSec → MSec) (pred : MSec → Bool)
    (h1 : ∀ r, pred (f r) = pred r) (h2 : ∀ r, pred r = true → f r = r) :
    (l.map f).filter pred = l.filter pred := by
  rw [filter_map_comm l f pred h1]
  have h3 : ∀ r ∈ l.filter pred, f r = r :=
    fun r hr => h2 r (List.of_mem_filter hr)
  calc (l.filter pred).map f = (l.filter pred).map id := List.map_congr_left h3
    _ = l.filter pred := List.map_id _

theorem unique_filter_id (l : List MSec) (x : Nat) (r : MSec)
    (hnd : idsNodup l) (h : getSec l x = some r) :
    l.filter (fun t => t.id = x) = [r] := by
  induction l with
  | nil => simp [getSec] at h
  | cons a tl ih =>
    by_cases ha : a.id = x
    · rw [getSec, List.find?_cons_of_pos _ (by simpa using ha)] at h
      have har : a = r := by injection h
      rw [List.filter_cons_of_pos (by simpa using ha)]
      have htl : tl.filter (fun t => decide (t.id = x)) = [] := by
        rw [List.filter_eq_nil_iff]
        intro t ht hpt
        have htid : t.id = x := by simpa using hpt
        have hmem : x ∈ tl.map (fun u => u.id) := List.mem_map.mpr ⟨t, ht, htid⟩
        have hnot := (List.nodup_cons.mp hnd).1
        exact hnot (by simp only [ha]; exact hmem)
      rw [har]
      simp [htl]
    · rw [getSec, List.find?_cons_of_neg _ (by simpa using ha)] at h
      rw [List.filter_cons_of_neg (by simpa using ha)]
      exact ih (List.nodup_cons.mp hnd).2 h

theorem range'_map_succ (n : Nat) : ∀ s : Nat,
    (List.range' s n).map (fun i => i + 1) = List.range' (s + 1) n := by
  induction n with
  | zero => intro s; simp
  | succ n ih =>
    intro s
    rw [List.range'_succ, List.range'_succ, List.map_cons, ih (s + 1)]

theorem map_shift_perm (m newOrder : Nat) (h : newOrder ≤ m) :
    ((List.range m).map (fun i => if newOrder ≤ i then i + 1 else i) ++
        [newOrder]).Perm (List.range (m + 1)) := by
  have hsplit : List.range m =
      List.range newOrder ++ List.range' newOrder (m - newOrder) := by
    have happ := List.range'_append 0 newOrder (m - newOrder) 1
    simp only [Nat.mul_one, Nat.zero_add, Nat.one_mul] at happ
    rw [List.range_eq_range', List.range_eq_range']
    conv_lhs => rw [show m = m - newOrder + newOrder from by omega]
    rw [← happ]
  have h1 : (List.range newOrder).map (fun i => if newOrder ≤ i then i + 1 else i) =
      List.range newOrder := by
    have hid : ∀ i ∈ List.range newOrder,
        (if newOrder ≤ i then i + 1 else i) = id i := by
      intro i hi
      rw [List.mem_range] at hi
      simp [Nat.not_le.mpr hi]
    rw [List.map_congr_left hid, List.map_id]
  have h2 : (List.range' newOrder (m - newOrder)).map
        (fun i => if newOrder ≤ i then i + 1 else i) =
      List.range' (newOrder + 1) (m - newOrder) := by
    have hsucc : ∀ i ∈ List.range' newOrder (m - newOrder),
        (if newOrder ≤ i then i + 1 else i) = (fun j => j + 1) i := by
      intro i hi
      have := (List.mem_range'_1.mp hi).1
      simp [this]
    rw [List.map_congr_left hsucc, range'_map_succ]
  rw [hsplit, List.map_append, h1, h2]
  have hperm : ((List.range newOrder ++ List.range' (newOrder + 1) (m - newOrder)) ++
        [newOrder]).Perm
      ((List.range newOrder ++ [newOrder]) ++
        List.range' (newOrder + 1) (m - newOrder)) := by
    rw [List.append_assoc, List.append_assoc]
    exact List.Perm.append_left _ List.perm_append_comm
  refine hperm.trans (List.Perm.of_eq ?_)
  rw [← List.range_succ]
  have happ := List.range'_append 0 (newOrder + 1) (m - newOrder) 1
  simp only [Nat.mul_one, Nat.zero_add, Nat.one_mul] at happ
  rw [List.range_eq_range', List.range_eq_range']
  conv_rhs => rw [show m + 1 = m - newOrder + (newOrder + 1) from by omega]
  rw [← happ]

theorem filter_parent_map (u : List MSec) (f : MSec → MSec) (pp : Option Nat)
    (hf : ∀ r, (f r).parentId = r.parentId) :
    (u.map f).filter (fun r => r.parentId = pp) =
      (u.filter (fun r => r.parentId = pp)).map f :=
  filter_map_comm u f _ (fun r => by simp [hf r])

theorem renumberOld_contiguous (u : List MSec) (p sid : Nat)
    (hnd : idsNodup u)
    (hnosid : ∀ r ∈ u, r.parentId = some p → ¬ r.id = sid) :
    contiguous (((renumberOld u p sid).filter
      (fun r => r.parentId = some p)).map MSec.ord) := by
  have hfeq : u.filter (fun r => r.parentId = some p && r.id ≠ sid) =
      u.filter (fun r => r.parentId = some p) := by
    apply List.filter_congr
    intro r hr
    by_cases hp : r.parentId = some p
    · simp [hp, hnosid r hr hp]
    · simp [hp]
  have hcomm : (renumberOld u p sid).filter (fun r => r.parentId = some p) =
      (u.filter (fun r => r.parentId = some p)).map
        (fun r => if r.parentId = some p && r.id ≠ sid then
          { r with ord := idxInList (sortMByOrd (u.filter
              (fun t => t.parentId = some p && t.id ≠ sid))) r.id }
          else r) := by
    simp only [renumberOld]
    exact filter_parent_map u _ (some p) (fun r => by split <;> rfl)
  rw [hcomm]
  have hsibsL : sortMByOrd (u.filter (fun t => t.parentId = some p && t.id ≠ sid)) =
      sortMByOrd (u.filter (fun r => r.parentId = some p)) := by
    rw [hfeq]
  have hndL : ((u.filter (fun r => r.parentId = some p)).map (fun r => r.id)).Nodup := by
    have hsub : ((u.filter (fun r => r.parentId = some p)).map (fun r => r.id)).Sublist
        (u.map (fun r => r.id)) :=
      (List.filter_sublist u).map _
    exact List.Nodup.sublist hsub hnd
  have hpermsort : (sortMByOrd (u.filter (fun r => r.parentId = some p))).Perm
      (u.filter (fun r => r.parentId = some p)) :=
    List.perm_insertionSort _ _
  have hndsibs : ((sortMByOrd (u.filter (fun r => r.parentId = some p))).map
      (fun r => r.id)).Nodup :=
    ((hpermsort.map (fun r => r.id)).symm).nodup hndL
  have helem : ∀ r ∈ u.filter (fun r => r.parentId = some p),
      ((if r.parentId = some p && r.id ≠ sid then
        { r with ord := idxInList (sortMByOrd (u.filter
            (fun t => t.parentId = some p && t.id ≠ sid))) r.id }
        else r) : MSec).ord =
      idxInList (sortMByOrd (u.filter (fun t => t.parentId = some p && t.id ≠ sid))) r.id := by
    intro r hr
    have h1 : r.parentId = some p := by simpa using List.of_mem_filter hr
    have h2 : ¬ r.id = sid := hnosid r (List.mem_of_mem_filter hr) h1
    simp [h1, h2]
  rw [List.map_map]
  have hmapeq : (u.filter (fun r => r.parentId = some p)).map
      (MSec.ord ∘ (fun r => if r.parentId = some p && r.id ≠ sid then
        { r with ord := idxInList (sortMByOrd (u.filter
            (fun t => t.parentId = some p && t.id ≠ sid))) r.id }
        else r)) =
      (u.filter (fun r => r.parentId = some p)).map
        (fun r => idxInList (sortMByOrd (u.filter
          (fun t => t.parentId = some p && t.id ≠ sid))) r.id) :=
    List.map_congr_left (fun r hr => helem r hr)
  rw [hmapeq]
  unfold contiguous
  have hlen1 : ((u.filter (fun r => r.parentId = some p)).map
      (fun r => idxInList (sortMByOrd (u.filter
        (fun t => t.parentId = some p && t.id ≠ sid))) r.id)).length =
      (u.filter (fun r => r.parentId = some p)).length := by
    simp
  rw [hlen1]
  have hperm2 : ((u.filter (fun r => r.parentId = some p)).map
      (fun r => idxInList (sortMByOrd (u.filter
        (fun t => t.parentId = some p && t.id ≠ sid))) r.id)).Perm
      ((sortMByOrd (u.filter (fun r => r.parentId = some p))).map
        (fun r => idxInList (sortMByOrd (u.filter
          (fun t => t.parentId = some p && t.id ≠ sid))) r.id)) :=
    (hpermsort.map _).symm
  refine hperm2.trans ?_
  rw [hsibsL]
  rw [idx_map_range _ hndsibs]
  have hlen2 : (sortMByOrd (u.filter (fun r => r.parentId = some p))).length =
      (u.filter (fun r => r.parentId = some p)).length :=
    List.Perm.length_eq hpermsort
  rw [hlen2]

theorem shiftNew_contiguous (u : List MSec) (q sid newOrder m : Nat) (s1 : MSec)
    (hnd : idsNodup u)
    (hs1 : getSec u sid = some s1)
    (hs1q : s1.parentId = some q) (hs1o : s1.ord = newOrder)
    (hcanon : (sortMByOrd (u.filter (fun r => r.parentId = some q && r.id ≠ sid))).map
        MSec.ord = List.range m)
    (hno : newOrder ≤ m) :
    contiguous (((shiftNew u q sid newOrder).filter
      (fun r => r.parentId = some q)).map MSec.ord) := by
  have hsid : s1.id = sid := getSec_some_id u sid s1 hs1
  have hsortperm : (sortMByOrd (u.filter (fun r => r.parentId = some q && r.id ≠ sid))).Perm
      (u.filter (fun r => r.parentId = some q && r.id ≠ sid)) :=
    List.perm_insertionSort _ _
  have hndflt : ((u.filter (fun r => r.parentId = some q && r.id ≠ sid)).map
      (fun r => r.id)).Nodup :=
    List.Nodup.sublist ((List.filter_sublist u).map _) hnd
  have hndsibs : ((sortMByOrd (u.filter (fun r => r.parentId = some q && r.id ≠ sid))).map
      (fun r => r.id)).Nodup :=
    ((hsortperm.map (fun r => r.id)).symm).nodup hndflt
  have hsibslen : (sortMByOrd (u.filter (fun r => r.parentId = some q && r.id ≠ sid))).length =
      m := by
    have hc := congrArg List.length hcanon
    rw [List.length_map, List.length_range] at hc
    exact hc
  -- shiftNew commutes with the parent filter
  have hcomm : (shiftNew u q sid newOrder).filter (fun r => r.parentId = some q) =
      (u.filter (fun r => r.parentId = some q)).map
        (fun r => if r.parentId = some q && r.id ≠ sid then
          (if newOrder ≤ idxInList (sortMByOrd (u.filter
              (fun t => t.parentId = some q && t.id ≠ sid))) r.id then
            { r with ord := idxInList (sortMByOrd (u.filter
                (fun t => t.parentId = some q && t.id ≠ sid))) r.id + 1 }
          else r)
          else r) := by
    simp only [shiftNew]
    exact filter_parent_map u _ (some q)
      (fun r => by split
                   · split <;> rfl
                   · rfl)
  -- splitting the parent-q rows into the moved row and the others
  have hA : (u.filter (fun r => r.parentId = some q)).filter (fun r => r.id ≠ sid) =
      u.filter (fun r => r.parentId = some q && r.id ≠ sid) := by
    rw [List.filter_filter]
    exact List.filter_congr (fun a _ => Bool.and_comm _ _)
  have hB : (u.filter (fun r => r.parentId = some q)).filter
      (fun r => !(decide (r.id ≠ sid))) = [s1] := by
    rw [List.filter_filter]
    have hcongr : ∀ a ∈ u, (!(decide (a.id ≠ sid)) && decide (a.parentId = some q)) =
        (decide (a.parentId = some q) && decide (a.id = sid)) := by
      intro a _
      by_cases hid : a.id = sid <;> by_cases hpq : a.parentId = some q <;>
        simp [hid, hpq]
    rw [List.filter_congr hcongr]
    rw [← List.filter_filter]
    rw [unique_filter_id u sid s1 hnd hs1]
    simp [hs1q]
  have hperm0 : (u.filter (fun r => r.parentId = some q)).Perm
      (u.filter (fun r => r.parentId = some q && r.id ≠ sid) ++ [s1]) := by
    have h0 := (List.filter_append_perm (fun r => (r.id ≠ sid : Bool))
      (u.filter (fun r => r.parentId = some q))).symm
    rw [hA, hB] at h0
    exact h0
  have hfql : (u.filter (fun r => r.parentId = some q)).length = m + 1 := by
    have h1 := hperm0.length_eq
    rw [List.length_append] at h1
    have h2 : (u.filter (fun r => r.parentId = some q && r.id ≠ sid)).length = m := by
      rw [← hsortperm.length_eq]
      exact hsibslen
    simp only [List.length_singleton] at h1
    omega
  -- each sorted sibling's order equals its enumeration index
  have hordidx : ∀ r ∈ sortMByOrd (u.filter (fun t => t.parentId = some q && t.id ≠ sid)),
      idxInList (sortMByOrd (u.filter (fun t => t.parentId = some q && t.id ≠ sid))) r.id =
        r.ord := by
    intro r hr
    obtain ⟨i, hi, heq⟩ := List.getElem_of_mem hr
    subst heq
    rw [idx_get _ hndsibs i hi]
    have hc := congrArg (fun l => l[i]?) hcanon
    simp only [List.getElem?_map] at hc
    rw [List.getElem?_eq_getElem hi] at hc
    have hi2 : i < m := by omega
    rw [List.getElem?_range hi2] at hc
    rw [Option.map_some'] at hc
    have := Option.some.inj hc
    omega
  -- the shift map, element by element on the sorted siblings
  have hFord : ∀ r ∈ sortMByOrd (u.filter (fun t => t.parentId = some q && t.id ≠ sid)),
      ((if r.parentId = some q && r.id ≠ sid then
        (if newOrder ≤ idxInList (sortMByOrd (u.filter
            (fun t => t.parentId = some q && t.id ≠ sid))) r.id then
          { r with ord := idxInList (sortMByOrd (u.filter
              (fun t => t.parentId = some q && t.id ≠ sid))) r.id + 1 }
        else r)
        else r) : MSec).ord =
      (if newOrder ≤ r.ord then r.ord + 1 else r.ord) := by
    intro r hr
    have hmem2 : r ∈ u.filter (fun t => t.parentId = some q && t.id ≠ sid) :=
      hsortperm.mem_iff.mp hr
    have hof := List.of_mem_filter hmem2
    have hp1 : r.parentId = some q := by
      have := (Bool.and_eq_true _ _).mp hof
      simpa using this.1
    have hp2 : ¬ r.id = sid := by
      have := (Bool.and_eq_true _ _).mp hof
      simpa using this.2
    rw [if_pos hof]
    rw [hordidx r hr]
    by_cases hno2 : newOrder ≤ r.ord
    · rw [if_pos hno2, if_pos hno2]
    · rw [if_neg hno2, if_neg hno2]
  have hkey : ((sortMByOrd (u.filter (fun t => t.parentId = some q && t.id ≠ sid))).map
        (fun r => if r.parentId = some q && r.id ≠ sid then
          (if newOrder ≤ idxInList (sortMByOrd (u.filter
              (fun t => t.parentId = some q && t.id ≠ sid))) r.id then
            { r with ord := idxInList (sortMByOrd (u.filter
                (fun t => t.parentId = some q && t.id ≠ sid))) r.id + 1 }
          else r)
          else r)).map MSec.ord =
      (List.range m).map (fun i => if newOrder ≤ i then i + 1 else i) := by
    rw [List.map_map]
    simp only [Function.comp_def]
    have hcg := List.map_congr_left hFord
    rw [hcg]
    rw [show (fun r : MSec => if newOrder ≤ r.ord then r.ord + 1 else r.ord) =
      ((fun o => if newOrder ≤ o then o + 1 else o) ∘ MSec.ord) from rfl]
    rw [← List.map_map, hcanon]
  -- assembling the permutation
  rw [hcomm]
  unfold contiguous
  rw [List.length_map, List.length_map, hfql]
  have c1 := (hperm0.map (fun r => if r.parentId = some q && r.id ≠ sid then
    (if newOrder ≤ idxInList (sortMByOrd (u.filter
        (fun t => t.parentId = some q && t.id ≠ sid))) r.id then
      { r with ord := idxInList (sortMByOrd (u.filter
          (fun t => t.parentId = some q && t.id ≠ sid))) r.id + 1 }
    else r)
    else r)).map MSec.ord
  refine c1.trans ?_
  rw [List.map_append, List.map_append]
  have c2 : (([s1].map (fun r => if r.parentId = some q && r.id ≠ sid then
      (if newOrder ≤ idxInList (sortMByOrd (u.filter
          (fun t => t.parentId = some q && t.id ≠ sid))) r.id then
        { r with ord := idxInList (sortMByOrd (u.filter
            (fun t => t.parentId = some q && t.id ≠ sid))) r.id + 1 }
      else r)
      else r)).map MSec.ord) = [newOrder] := by
    simp [hsid, hs1o]
  rw [c2]
  have c3 := ((hsortperm.symm.map (fun r => if r.parentId = some q && r.id ≠ sid then
    (if newOrder ≤ idxInList (sortMByOrd (u.filter
        (fun t => t.parentId = some q && t.id ≠ sid))) r.id then
      { r with ord := idxInList (sortMByOrd (u.filter
          (fun t => t.parentId = some q && t.id ≠ sid))) r.id + 1 }
    else r)
    else r)).map MSec.ord)
  refine (List.Perm.append c3 (List.Perm.refl [newOrder])).trans ?_
  rw [hkey]
  exact map_shift_perm m newOrder hno

theorem idsNodup_map (st : List MSec) (f : MSec → MSec)
    (hf : ∀ r, (f r).id = r.id) (h : idsNodup st) : idsNodup (st.map f) := by
  unfold idsNodup at *
  rw [List.map_map]
  have hfe : ((fun r => r.id) ∘ f) = fun r : MSec => r.id := funext fun r => hf r
  rw [hfe]
  exact h

/-- C8 (amended): after a successful `move_section` between two distinct
non-root locations, the remaining children of the old parent `p` are
renumbered to exactly `0 … n−1`; the children of the new parent `q` have
contiguous orders `0 … m` provided the other children of `q` were
canonically numbered `0 … m−1` beforehand and `new_order ≤ m`.  (When a
location is the root level — parent `None` — the source performs no
renumbering there at all, which is what the counterexample exhibits.) -/
theorem C8_move_renumbers_locations (st : List MSec) (sid p q newOrder m : Nat)
    (s qp : MSec)
    (hnodup : idsNodup st)
    (hs : getSec st sid = some s) (hsp : s.parentId = some p)
    (hq : getSec st q = some qp)
    (hwalk : ancWalk st sid qp.parentId (st.length + 1) = .clear)
    (hpq : p ≠ q)
    (hcanon : (sortMByOrd (st.filter (fun r => r.parentId = some q && r.id ≠ sid))).map
        MSec.ord = List.range m)
    (hno : newOrder ≤ m) :
    ∃ ret st', move_section st sid (some q) newOrder = .res ret st' ∧
      contiguous ((st'.filter (fun r => r.parentId = some p)).map MSec.ord) ∧
      contiguous ((st'.filter (fun r => r.parentId = some q)).map MSec.ord) := by
  have hsid : s.id = sid := getSec_some_id st sid s hs
  have hmv : move_section st sid (some q) newOrder =
      .res (getSec (shiftNew (renumberOld (setSec st sid (some q) newOrder) p sid)
          q sid newOrder) sid)
        (shiftNew (renumberOld (setSec st sid (some q) newOrder) p sid)
          q sid newOrder) := by
    simp [move_section, hs, hq, hwalk, moveApply, hsp]
  -- the updated row and the intermediate states
  have hnodup1 : idsNodup (setSec st sid (some q) newOrder) := by
    simp only [setSec]
    exact idsNodup_map st _ (fun r => by split <;> rfl) hnodup
  have hs1 : getSec (setSec st sid (some q) newOrder) sid =
      some ⟨s.id, some q, newOrder⟩ := by
    rw [getSec_setSec, hs]
    rfl
  have hnodup2 : idsNodup (renumberOld (setSec st sid (some q) newOrder) p sid) := by
    simp only [renumberOld]
    exact idsNodup_map _ _ (fun r => by split <;> rfl) hnodup1
  have hs2 : getSec (renumberOld (setSec st sid (some q) newOrder) p sid) sid =
      some ⟨s.id, some q, newOrder⟩ := by
    rw [getSec_renumberOld_self]
    exact hs1
  -- transporting the canonical-order hypothesis to the intermediate state
  have hstep_a : (setSec st sid (some q) newOrder).filter
      (fun r => r.parentId = some q && r.id ≠ sid) =
      st.filter (fun r => r.parentId = some q && r.id ≠ sid) := by
    simp only [setSec]
    apply filter_map_fix
    · intro r
      split
      · rename_i hcond
        simp [hcond]
      · rfl
    · intro r hrt
      have hne : ¬ r.id = sid := by
        have := (Bool.and_eq_true _ _).mp hrt
        simpa using this.2
      simp [hne]
  have hstep_b : (renumberOld (setSec st sid (some q) newOrder) p sid).filter
      (fun r => r.parentId = some q && r.id ≠ sid) =
      (setSec st sid (some q) newOrder).filter
        (fun r => r.parentId = some q && r.id ≠ sid) := by
    simp only [renumberOld]
    apply filter_map_fix
    · intro r
      split <;> rfl
    · intro r hrt
      have hrq : r.parentId = some q := by
        have := (Bool.and_eq_true _ _).mp hrt
        simpa using this.1
      split
      · rename_i hcond
        exfalso
        have hrp : r.parentId = some p := by
          have := (Bool.and_eq_true _ _).mp hcond
          simpa using this.1
        rw [hrq] at hrp
        exact hpq (Option.some.inj hrp).symm
      · rfl
  have hcanon2 : (sortMByOrd ((renumberOld (setSec st sid (some q) newOrder) p sid).filter
      (fun r => r.parentId = some q && r.id ≠ sid))).map MSec.ord = List.range m := by
    rw [hstep_b, hstep_a]
    exact hcanon
  -- old-location contiguity, transported through the new-location shift
  have hnosid1 : ∀ r ∈ setSec st sid (some q) newOrder,
      r.parentId = some p → ¬ r.id = sid := by
    intro r hr hrp hrid
    have hval := getSec_mem (setSec st sid (some q) newOrder) r sid hnodup1 hr hrid
    rw [hs1] at hval
    have hreq : r = ⟨s.id, some q, newOrder⟩ := by
      injection hval with heq
      exact heq.symm
    rw [hreq] at hrp
    simp at hrp
    exact hpq hrp.symm
  have hold := renumberOld_contiguous (setSec st sid (some q) newOrder) p sid
    hnodup1 hnosid1
  have hstep_c : (shiftNew (renumberOld (setSec st sid (some q) newOrder) p sid)
      q sid newOrder).filter (fun r => r.parentId = some p) =
      (renumberOld (setSec st sid (some q) newOrder) p sid).filter
        (fun r => r.parentId = some p) := by
    simp only [shiftNew]
    apply filter_map_fix
    · intro r
      split
      · split <;> rfl
      · rfl
    · intro r hrt
      have hrp : r.parentId = some p := by simpa using hrt
      split
      · rename_i hcond
        exfalso
        have hrq : r.parentId = some q := by
          have := (Bool.and_eq_true _ _).mp hcond
          simpa using this.1
        rw [hrp] at hrq
        exact hpq (Option.some.inj hrq)
      · rfl
  -- the new-location contiguity from the dedicated lemma
  have hnew := shiftNew_contiguous (renumberOld (setSec st sid (some q) newOrder) p sid)
    q sid newOrder m ⟨s.id, some q, newOrder⟩ hnodup2 hs2 rfl rfl hcanon2 hno
  refine ⟨_, _, hmv, ?_, hnew⟩
  rw [hstep_c]
  exact hold

/-- Witness for C8 at a concrete five-row table: section 4 moves from
parent 1 (children 3, 4) to parent 2 (child 5, canonically numbered) at
position 1; both locations end up contiguously numbered. -/
theorem C8_witness :
    ∃ ret st', move_section
        [⟨1, none, 0⟩, ⟨2, none, 1⟩, ⟨3, some 1, 0⟩, ⟨4, some 1, 1⟩, ⟨5, some 2, 0⟩]
        4 (some 2) 1 = .res ret st' ∧
      contiguous ((st'.filter (fun r => r.parentId = some 1)).map MSec.ord) ∧
      contiguous ((st'.filter (fun r => r.parentId = some 2)).map MSec.ord) :=
  C8_move_renumbers_locations
    [⟨1, none, 0⟩, ⟨2, none, 1⟩, ⟨3, some 1, 0⟩, ⟨4, some 1, 1⟩, ⟨5, some 2, 0⟩]
    4 1 2 1 1 ⟨4, some 1, 1⟩ ⟨2, none, 1⟩
    (by decide) (by decide) rfl (by decide) (by decide) (by decide) (by decide)
    (by decide)

/-- C8 counterexample: with two root sections (orders 0 and 1), moving
section 0 to the root level at position 1 succeeds, yet the root-level
sibling orders end up as 1, 1 — duplicated, not the contiguous 0..1 the
claim asserts — because the source renumbers neither location when the
parent is `None`. -/
theorem C8_counterexample :
    move_section [⟨0, none, 0⟩, ⟨1, none, 1⟩] 0 none 1 =
      .res (some ⟨0, none, 1⟩) [⟨0, none, 1⟩, ⟨1, none, 1⟩] ∧
    ¬ contiguous ((([⟨0, none, 1⟩, ⟨1, none, 1⟩] : List MSec).filter
      (fun r => r.parentId = none)).map MSec.ord) := by decide

/-! ## Theorems: the remaining claims -/

/-- C1: the Section-Tree Assembler applied to the flat ordered sections
[(T1,1), (T2,2), (T3,2), (T4,1)] produces a forest with exactly the two
roots T1 and T4 in encounter order, with T1's children [T2, T3] in
document order and T4 childless. -/
theorem C1_section_tree_assembly :
    ((rootsOf (processSections
      [⟨"T1", 1, ""⟩, ⟨"T2", 2, ""⟩, ⟨"T3", 2, ""⟩, ⟨"T4", 1, ""⟩])).map
        SecRec.title = ["T1", "T4"]) ∧
    ((rootsOf (processSections
      [⟨"T1", 1, ""⟩, ⟨"T2", 2, ""⟩, ⟨"T3", 2, ""⟩, ⟨"T4", 1, ""⟩])).map
        (fun r => (childrenOf (processSections
          [⟨"T1", 1, ""⟩, ⟨"T2", 2, ""⟩, ⟨"T3", 2, ""⟩, ⟨"T4", 1, ""⟩])
            r.id |>.map SecRec.title)) = [["T2", "T3"], []]) := by decide

/-- C2 counterexample: on the document `"# Intro Overview\n## Intro"`
the second section's own heading line has two leading `#`, but
`_get_heading_level` searches for the first `#`-line containing the
title as a substring and finds `"# Intro Overview"`, so the extracted
levels are [1, 1], not [1, 2] as the claim requires. -/
theorem C2_counterexample :
    (extractSectionsMd "# Intro Overview\n## Intro").map MdSection.title =
      ["Intro Overview", "Intro"] ∧
    (extractSectionsMd "# Intro Overview\n## Intro").map MdSection.level = [1, 1] ∧
    ((splitLines "# Intro Overview\n## Intro").map (fun l => leadingHashes l.data)) =
      [1, 2] := by decide

/-- C2 (amended): for every markdown input, the extracted section list
has one section per `#`-line whose stripped title is non-empty, in
document order; each section's level is the leading-`#` count of the
first `#`-line of the document containing the title as a substring (not
necessarily its own heading line); each section's content is the
newline-join of the non-blank non-heading lines between its heading and
the next heading or end of document.  `specSections` transcribes exactly
this description. -/
theorem C2_sections_follow_spec (markdown : String) :
    extractSectionsMd markdown = specSections (splitLines markdown) := by
  have h := (extractAux_spec (splitLines markdown) (splitLines markdown)).2 none [] rfl
  simpa [extractSectionsMd, extractSections, specSections] using h

/-- C3 counterexample: the claim also covers
`StructuredPaperExtractor._extract_references`, and there the same
two-line references body yields one reference that keeps the `1. `
marker — `"1. Smith et al. Title. continued text."` — not the claimed
`"Smith et al. Title. continued text."`. -/
theorem C3_counterexample :
    extract_references "## References\n1. Smith et al. Title.\ncontinued text." =
        ["1. Smith et al. Title. continued text."] ∧
      ("1. Smith et al. Title. continued text." : String) ≠
        "Smith et al. Title. continued text." := by
  exact ⟨by decide, by decide⟩

/-- C3 (amended): on a references body of exactly the two lines
`"1. Smith et al. Title."` and `"continued text."`, the two cited
implementations diverge: `AcademicPaperParser._process_references`
strips the numbered marker through its regex capture group and yields
exactly `["Smith et al. Title. continued text."]`, while
`StructuredPaperExtractor._extract_references` appends the whole
stripped line and yields `["1. Smith et al. Title. continued text."]`. -/
theorem C3_reference_continuation :
    processReferences ["1. Smith et al. Title.", "continued text."] =
        ["Smith et al. Title. continued text."] ∧
      extract_references "## References\n1. Smith et al. Title.\ncontinued text." =
        ["1. Smith et al. Title. continued text."] := by
  exact ⟨by decide, by decide⟩

theorem pollAux_pending (resp : Nat → JobResponse) (i fuel : Nat)
    (h : (resp i).status = "PENDING") :
    pollAux resp i (fuel + 1) = pollAux resp (i + 1) fuel := by
  rw [pollAux, h]
  rfl

theorem pollAux_success (resp : Nat → JobResponse) (i fuel : Nat)
    (h : (resp i).status = "SUCCESS") :
    pollAux resp i (fuel + 1) = .success (i + 1) := by
  rw [pollAux, h]
  rfl

theorem pollAux_all_pending (resp : Nat → JobResponse) :
    ∀ (fuel i : Nat), (∀ j, j < i + fuel → (resp j).status = "PENDING") →
      pollAux resp i fuel = .timedOut "Parsing job timed out after 60 seconds" := by
  intro fuel
  induction fuel with
  | zero => intro i _; rfl
  | succ fuel ih =>
    intro i h
    rw [pollAux_pending resp i fuel (h i (by omega))]
    exact ih (i + 1) (fun j hj => h j (by omega))

/-- C4: the remote adapter's poll loop, on a status sequence PENDING,
PENDING, SUCCESS, breaks out and proceeds to result retrieval after
exactly 3 status requests; on a sequence that stays PENDING for the
whole budget of 30 attempts it raises a timeout `ValueError` rather than
returning any (empty) result. -/
theorem C4_poll_loop (resp resp2 : Nat → JobResponse)
    (h0 : (resp 0).status = "PENDING") (h1 : (resp 1).status = "PENDING")
    (h2 : (resp 2).status = "SUCCESS")
    (hP : ∀ i, i < 30 → (resp2 i).status = "PENDING") :
    pollJob resp = .success 3 ∧
    pollJob resp2 = .timedOut "Parsing job timed out after 60 seconds" := by
  constructor
  · calc pollAux resp 0 30 = pollAux resp 1 29 := pollAux_pending resp 0 29 h0
      _ = pollAux resp 2 28 := pollAux_pending resp 1 28 h1
      _ = .success 3 := pollAux_success resp 2 27 h2
  · exact pollAux_all_pending resp2 30 0 (fun j hj => hP j (by omega))

/-- Witness for C4 at two concrete response sequences. -/
theorem C4_witness :
    pollJob (fun i => ⟨if i < 2 then "PENDING" else "SUCCESS", none⟩) = .success 3 ∧
    pollJob (fun _ => ⟨"PENDING", none⟩) =
      .timedOut "Parsing job timed out after 60 seconds" :=
  C4_poll_loop _ _ (by decide) (by decide) (by decide) (fun _ _ => rfl)

/-- C5 counterexample: with PyMuPDF available, opening succeeding and
the parsing pipeline raising, `process` returns the fallback path's note
document — not a markdown document beginning with `"# Processing
Error"` as the claim asserts for every internal exception. -/
theorem C5_counterexample :
    (acadProcess ⟨true, .ok (), .error "bad xref table", .ok "", .ok ""⟩).1 =
      "# ACADEMIC PAPER TITLE\n\n> Note: This document was processed using AcademicPaperParser." ∧
    strStartsWith
      (acadProcess ⟨true, .ok (), .error "bad xref table", .ok "", .ok ""⟩).1
      "# Processing Error" = false := by decide

/-- C5 (amended): any exception during PyMuPDF processing (opening the
document or running the parsing pipeline) is caught and `process`
returns the fallback parser's markdown — some string, never a propagated
exception; the `"# Processing Error"` document belongs to the outer
handler only, which the fallback path's own exception handling keeps off
these paths. -/
theorem C5_exception_returns_fallback (env : AcadEnv)
    (hav : env.pymupdfAvailable = true)
    (h : (∃ e, env.openResult = .error e) ∨ (∃ e, env.pipelineResult = .error e)) :
    (acadProcess env).1 = fallbackProcess env := by
  rcases h with ⟨e, he⟩ | ⟨e, he⟩
  · simp [acadProcess, hav, he]
  · cases ho : env.openResult with
    | error e2 => simp [acadProcess, hav, ho]
    | ok u => simp [acadProcess, hav, ho, he]

/-- Witness for C5 at a concrete environment whose pipeline raises. -/
theorem C5_witness :
    (acadProcess ⟨true, .ok (), .error "boom", .ok "", .ok ""⟩).1 =
      fallbackProcess ⟨true, .ok (), .error "boom", .ok "", .ok ""⟩ :=
  C5_exception_returns_fallback ⟨true, .ok (), .error "boom", .ok "", .ok ""⟩ rfl
    (.inr ⟨"boom", rfl⟩)

/-- C6: evaluation at the failing input.  With PyMuPDF available, the
document opened, and the parsing pipeline raising, the inner exception
handler falls back without closing `self.doc`: `process` returns the
fallback note document while the handle is still open (second component
`true`), contradicting the claim that the handle is closed on every exit
path. -/
theorem C6_handle_leaks_on_fallback_path :
    acadProcess ⟨true, .ok (), .error "bad xref table", .ok "", .ok ""⟩ =
      ("# ACADEMIC PAPER TITLE\n\n> Note: This document was processed using AcademicPaperParser.",
        true) := by decide

/-- C9 counterexample: on the fully un-parseable (but readable) content
`"%%%%"` — no stream markers, no parentheses, no alphabetic runs — every
stage comes up empty and the extractor returns the empty string, which
does not contain the word "Failed"; the claimed failure message does not
appear. -/
theorem C9_counterexample :
    extract_text_from_pdf ⟨none, .ok "%%%%"⟩ = "" ∧
    strContainsSub (extract_text_from_pdf ⟨none, .ok "%%%%"⟩) "Failed" = false := by
  decide

/-- C9 (amended): the Raw Text Extractor never raises (it is a total
function of its environment); the deterministic failure message
containing "Failed" is produced exactly when reading the file raises an
exception, in which case the result is
`"Failed to extract text: " ++ e`; content from which no stage extracts
anything yields the empty string instead. -/
theorem C9_failure_message_on_read_error (env : TxEnv) (e : String)
    (h1 : env.pdftotextOutput = none) (h2 : env.readResult = .error e) :
    extract_text_from_pdf env = "Failed to extract text: " ++ e ∧
    ∃ t, extract_text_from_pdf env = "Failed" ++ t := by
  have hmain : extract_text_from_pdf env = "Failed to extract text: " ++ e := by
    simp [extract_text_from_pdf, h1, h2]
  refine ⟨hmain, " to extract text: " ++ e, ?_⟩
  rw [hmain]
  rw [show ("Failed to extract text: " : String) =
    "Failed" ++ " to extract text: " from by decide]
  rw [String.append_assoc]

/-- Witness for C9 at a concrete read failure. -/
theorem C9_witness :
    extract_text_from_pdf ⟨none, .error "boom"⟩ =
      "Failed to extract text: " ++ "boom" ∧
    ∃ t, extract_text_from_pdf ⟨none, .error "boom"⟩ = "Failed" ++ t :=
  C9_failure_message_on_read_error ⟨none, .error "boom"⟩ "boom" rfl rfl
